import Mathlib

/-!
Verification development for the MemGPT-Proxy repository (a protocol-translation
gateway between a stateless OpenAI-style chat API and a stateful Letta agent
backend).  The definitions below are a shallow embedding of the Python sources:

 * `src/proxy_overlay.py`  — `_TTLCache`, `SessionOverlayStore`,
   `ProxyOverlayManager.derive_session_id`, `ProxyOverlayManager.apply_overlay`,
   with `hashlib.sha256(...).hexdigest()` embedded as a full SHA-256 over the
   UTF-8 bytes of the content;
 * `src/proxy_tool_bridge.py` — `ProxyToolBridge.sync_agent_tools` and its
   helpers, with the backend's attach/detach/upsert calls recorded as an
   explicit operation log;
 * `src/main.py` — `_normalize_content`, `_extract_latest_user_message`,
   `_extract_trailing_tool_messages`, the outbound-batch construction inside
   `chat_completions`, and the SSE generators `event_stream` / `empty_stream`.

Backend I/O is modelled by explicit result descriptors (`Backend`), monotonic
wall-clock reads by explicit `now : Nat` parameters, and every backend call a
function issues is returned as part of its result so that call-counting claims
can be stated directly.
-/

namespace MemGPTProxy

/-! ### SHA-256 (embedding of `hashlib.sha256(content.encode("utf-8")).hexdigest()`) -/

def mask32 (x : Nat) : Nat := x % 4294967296

def rotr32 (n x : Nat) : Nat := mask32 ((x >>> n) ||| (x <<< (32 - n)))

def smallSigma0 (x : Nat) : Nat := rotr32 7 x ^^^ rotr32 18 x ^^^ (x >>> 3)

def smallSigma1 (x : Nat) : Nat := rotr32 17 x ^^^ rotr32 19 x ^^^ (x >>> 10)

def bigSigma0 (x : Nat) : Nat := rotr32 2 x ^^^ rotr32 13 x ^^^ rotr32 22 x

def bigSigma1 (x : Nat) : Nat := rotr32 6 x ^^^ rotr32 11 x ^^^ rotr32 25 x

def chFn (x y z : Nat) : Nat := (x &&& y) ^^^ ((x ^^^ 4294967295) &&& z)

def majFn (x y z : Nat) : Nat := (x &&& y) ^^^ (x &&& z) ^^^ (y &&& z)

/-- Fueled binary search for the integer square root (invariant: lo² ≤ n < hi²). -/
def sqrtAux (n : Nat) : Nat → Nat → Nat → Nat
  | 0, lo, _ => lo
  | f + 1, lo, hi =>
    if hi ≤ lo + 1 then lo
    else
      let m := (lo + hi) / 2
      if m * m ≤ n then sqrtAux n f m hi else sqrtAux n f lo m

def natSqrt (n : Nat) : Nat := sqrtAux n 64 0 1099511627776

/-- Fueled binary search for the integer cube root (invariant: lo³ ≤ n < hi³). -/
def cbrtAux (n : Nat) : Nat → Nat → Nat → Nat
  | 0, lo, _ => lo
  | f + 1, lo, hi =>
    if hi ≤ lo + 1 then lo
    else
      let m := (lo + hi) / 2
      if m * m * m ≤ n then cbrtAux n f m hi else cbrtAux n f lo m

def natCbrt (n : Nat) : Nat := cbrtAux n 64 0 17592186044416

def isPrimeNat (n : Nat) : Bool :=
  decide (1 < n) && (List.range (natSqrt n - 1)).all fun d => n % (d + 2) != 0

/-- The first 64 primes (311 is the 64th). -/
def sha256Primes : List Nat := ((List.range 312).filter isPrimeNat).take 64

/-- First 32 fractional bits of `root p`, with `scale` the cube (resp. square) of 2³². -/
def fracRoot32 (root : Nat → Nat) (scale p : Nat) : Nat := root (p * scale) % 4294967296

/-- The SHA-256 round constants: fractional cube roots of the first 64 primes. -/
def sha256K : List Nat := sha256Primes.map (fracRoot32 natCbrt 79228162514264337593543950336)

structure Sha256State where
  a : Nat
  b : Nat
  c : Nat
  d : Nat
  e : Nat
  f : Nat
  g : Nat
  h : Nat
deriving Repr, DecidableEq

/-- The SHA-256 initial hash words: fractional square roots of the first 8 primes. -/
def sha256InitWords : List Nat :=
  (sha256Primes.take 8).map (fracRoot32 natSqrt 18446744073709551616)

def sha256InitState : Sha256State :=
  ⟨sha256InitWords.getD 0 0, sha256InitWords.getD 1 0, sha256InitWords.getD 2 0,
   sha256InitWords.getD 3 0, sha256InitWords.getD 4 0, sha256InitWords.getD 5 0,
   sha256InitWords.getD 6 0, sha256InitWords.getD 7 0⟩

def beBytes : Nat → Nat → List Nat
  | 0, _ => []
  | k + 1, n => beBytes k (n >>> 8) ++ [n % 256]

def sha256Pad (msg : List Nat) : List Nat :=
  let len := msg.length
  let zeros := (64 - ((len + 9) % 64)) % 64
  msg ++ [0x80] ++ List.replicate zeros 0 ++ beBytes 8 (8 * len)

def bytesToWords : List Nat → List Nat
  | b0 :: b1 :: b2 :: b3 :: rest =>
      (((((b0 <<< 8) ||| b1) <<< 8) ||| b2) <<< 8 ||| b3) :: bytesToWords rest
  | _ => []

def scheduleStep (w : List Nat) : List Nat :=
  let i := w.length
  let wi := mask32 (w.getD (i - 16) 0 + smallSigma0 (w.getD (i - 15) 0) +
    w.getD (i - 7) 0 + smallSigma1 (w.getD (i - 2) 0))
  w ++ [wi]

def extendSchedule : Nat → List Nat → List Nat
  | 0, w => w
  | k + 1, w => extendSchedule k (scheduleStep w)

def compressStep (st : Sha256State) (kw : Nat × Nat) : Sha256State :=
  let t1 := mask32 (st.h + bigSigma1 st.e + chFn st.e st.f st.g + kw.1 + kw.2)
  let t2 := mask32 (bigSigma0 st.a + majFn st.a st.b st.c)
  ⟨mask32 (t1 + t2), st.a, st.b, st.c, mask32 (st.d + t1), st.e, st.f, st.g⟩

def compressBlock (h0 : Sha256State) (block : List Nat) : Sha256State :=
  let w := extendSchedule 48 (bytesToWords block)
  let st := (sha256K.zip w).foldl compressStep h0
  ⟨mask32 (h0.a + st.a), mask32 (h0.b + st.b), mask32 (h0.c + st.c), mask32 (h0.d + st.d),
   mask32 (h0.e + st.e), mask32 (h0.f + st.f), mask32 (h0.g + st.g), mask32 (h0.h + st.h)⟩

def sha256Blocks : Nat → List Nat → Sha256State → Sha256State
  | 0, _, st => st
  | k + 1, bytes, st => sha256Blocks k (bytes.drop 64) (compressBlock st (bytes.take 64))

def sha256Digest (msg : List Nat) : Sha256State :=
  let padded := sha256Pad msg
  sha256Blocks (padded.length / 64) padded sha256InitState

def hexDigitChar (n : Nat) : Char :=
  if n < 10 then Char.ofNat (48 + n) else Char.ofNat (87 + n)

def wordToHex (w : Nat) : List Char :=
  [hexDigitChar ((w >>> 28) % 16), hexDigitChar ((w >>> 24) % 16),
   hexDigitChar ((w >>> 20) % 16), hexDigitChar ((w >>> 16) % 16),
   hexDigitChar ((w >>> 12) % 16), hexDigitChar ((w >>> 8) % 16),
   hexDigitChar ((w >>> 4) % 16), hexDigitChar (w % 16)]

def sha256Hex (msg : List Nat) : String :=
  let st := sha256Digest msg
  String.mk (([st.a, st.b, st.c, st.d, st.e, st.f, st.g, st.h].map wordToHex).flatten)

def utf8EncodeCharNat (c : Char) : List Nat :=
  let n := c.toNat
  if n < 0x80 then [n]
  else if n < 0x800 then [0xC0 ||| (n >>> 6), 0x80 ||| (n &&& 0x3F)]
  else if n < 0x10000 then
    [0xE0 ||| (n >>> 12), 0x80 ||| ((n >>> 6) &&& 0x3F), 0x80 ||| (n &&& 0x3F)]
  else
    [0xF0 ||| (n >>> 18), 0x80 ||| ((n >>> 12) &&& 0x3F),
     0x80 ||| ((n >>> 6) &&& 0x3F), 0x80 ||| (n &&& 0x3F)]

def utf8Bytes (s : String) : List Nat := (s.data.map utf8EncodeCharNat).flatten

/-- Embedding of `ProxyOverlayManager._hash_content`:
`hashlib.sha256(content.encode("utf-8")).hexdigest()`. -/
def hashContent (s : String) : String := sha256Hex (utf8Bytes s)

/-! ### `src/proxy_overlay.py` : session state, TTL caches, session-key derivation -/

/-- Embedding of the `SessionOverlayState` dataclass.  `last_updated` is a
monotonic timestamp, modelled as a `Nat`. -/
structure SessionOverlayState where
  overlay_hash : Option String := none
  block_id : Option String := none
  fallback_applied : Bool := false
  last_updated : Nat := 0
deriving Repr, DecidableEq

/-- Embedding of `_TTLCache`: an `OrderedDict` from keys to
(timestamp, value) pairs, in least-recently-used-first order. -/
structure TTLCache where
  entries : List (String × Nat × String) := []
  maxEntries : Nat := 100
  ttlSeconds : Nat := 10800
deriving Repr, DecidableEq

/-- Embedding of `_TTLCache.get`: expire-on-access, refresh the timestamp and
recency on a hit.  The mutated cache is returned alongside the value. -/
def TTLCache.get (c : TTLCache) (key : String) (now : Nat) :
    Option String × TTLCache :=
  match c.entries.find? (fun e => e.1 == key) with
  | none => (none, c)
  | some (_, ts, item) =>
    if now - ts > c.ttlSeconds then
      (none, { c with entries := c.entries.filter (fun e => e.1 != key) })
    else
      (some item, { c with entries := c.entries.filter (fun e => e.1 != key) ++ [(key, now, item)] })

/-- Embedding of `_TTLCache.set`: insert/overwrite at most-recent position and
evict from the least-recently-used end while over capacity. -/
def TTLCache.set (c : TTLCache) (key value : String) (now : Nat) : TTLCache :=
  let es := c.entries.filter (fun e => e.1 != key) ++ [(key, now, value)]
  { c with entries := es.drop (es.length - c.maxEntries) }

/-- Embedding of `SessionOverlayStore`: an `OrderedDict` of per-session overlay
states, least-recently-used first. -/
structure OverlayStore where
  entries : List (String × SessionOverlayState) := []
  maxSessions : Nat := 100
  ttlSeconds : Nat := 10800
deriving Repr, DecidableEq

/-- Embedding of `SessionOverlayStore.get`: expire-on-access (deleting the
expired entry), move-to-end on a hit; the state's `last_updated` field is not
refreshed by `get` (only `set` restamps it). -/
def OverlayStore.get (s : OverlayStore) (sessionId : String) (now : Nat) :
    Option SessionOverlayState × OverlayStore :=
  match s.entries.find? (fun e => e.1 == sessionId) with
  | none => (none, s)
  | some (_, st) =>
    if now - st.last_updated > s.ttlSeconds then
      (none, { s with entries := s.entries.filter (fun e => e.1 != sessionId) })
    else
      (some st, { s with entries := s.entries.filter (fun e => e.1 != sessionId) ++ [(sessionId, st)] })

/-- Embedding of `SessionOverlayStore.set`: restamp `last_updated`, place the
entry at most-recent position, evict least-recently-used entries while the
store is over capacity. -/
def OverlayStore.set (s : OverlayStore) (sessionId : String)
    (st : SessionOverlayState) (now : Nat) : OverlayStore :=
  let stamped := { st with last_updated := now }
  let es := s.entries.filter (fun e => e.1 != sessionId) ++ [(sessionId, stamped)]
  { s with entries := es.drop (es.length - s.maxSessions) }

def OVERLAY_LABEL : String := "proxy_system_overlay"

/-- Lookup of a header value, embedding `headers.get(k)`. -/
def hlookup (headers : List (String × String)) (k : String) : Option String :=
  (headers.find? (fun e => e.1 == k)).map (fun e => e.2)

/-- Python's `a or b` on optional strings: `a` unless it is `None` or `""`. -/
def orFalsy (a b : Option String) : Option String :=
  match a with
  | some v => if v == "" then b else some v
  | none => b

/-- Embedding of the shared get-or-insert step at the end of
`derive_session_id`: return the cached value for `key` if present, otherwise
cache `key ↦ key` and return `key`. -/
def cacheKeyLookup (cache : TTLCache) (key : String) (now : Nat) : String × TTLCache :=
  match cache.get key now with
  | (some cached, cache2) => (cached, cache2)
  | (none, cache2) => (key, cache2.set key key now)

/-- Embedding of the content/default part of `derive_session_id` (after the
header check): note the hash is taken over the raw `system_content`, with no
normalization. -/
def deriveContentKey (cache : TTLCache) (agentId : String)
    (systemContent : Option String) (now : Nat) : String × TTLCache :=
  match systemContent with
  | some c =>
    if c != "" then cacheKeyLookup cache (agentId ++ ":" ++ hashContent c) now
    else cacheKeyLookup cache (agentId ++ ":default") now
  | none => cacheKeyLookup cache (agentId ++ ":default") now

/-- Embedding of `ProxyOverlayManager.derive_session_id`.  The derived-session
cache is threaded explicitly; `now` is the monotonic clock. -/
def deriveSessionId (cache : TTLCache) (agentId : String)
    (systemContent : Option String) (headers : List (String × String))
    (now : Nat) : String × TTLCache :=
  match orFalsy (hlookup headers "x-session-id") (hlookup headers "X-Session-Id") with
  | some v =>
    if v != "" then (v, cache)
    else deriveContentKey cache agentId systemContent now
  | none => deriveContentKey cache agentId systemContent now

/-! ### `src/proxy_overlay.py` : `apply_overlay` -/

/-- A backend memory block as seen from `agents.blocks.list`. -/
structure Block where
  id : String
  label : String
deriving Repr, DecidableEq

/-- A backend call issued by `apply_overlay`, recorded with the content value
that was sent where applicable. -/
inductive BCall
  | listBlocks
  | modifyBlock (id : String) (value : String)
  | createBlock (value : String)
  | attachBlock (id : String)
deriving Repr, DecidableEq

/-- Mutation calls in the sense of the spec: block create/update calls. -/
def isCreateOrUpdate : BCall → Bool
  | .modifyBlock _ _ => true
  | .createBlock _ => true
  | _ => false

/-- Behaviour of the Letta backend for one `apply_overlay` call: the outcome of
each kind of call the manager may issue.  `Except Unit` models the Python
exception raised by a failing SDK call; `createResult` carries the id of the
created block (the code raises when that id is falsy). -/
structure Backend where
  modifyResult : String → Except Unit Unit
  listBlocksResult : Except Unit (List Block)
  createResult : Except Unit String
  attachResult : String → Except Unit Unit

/-- Python truthiness of `state.block_id` combined with the explicit
`state.block_id != ""` check on line 303 of `proxy_overlay.py`. -/
def blockIdValid : Option String → Bool
  | some b => b != ""
  | none => false

/-- Embedding of the content normalization in `apply_overlay`:
`content.replace("\x00", "").replace("\r\n", "\n").replace("\r", "\n")`. -/
def replaceCRLF : List Char → List Char
  | [] => []
  | '\r' :: '\n' :: rest => '\n' :: replaceCRLF rest
  | c :: rest => c :: replaceCRLF rest

def cleanSystemContent (s : String) : String :=
  String.mk ((replaceCRLF ((s.data.filter (fun c => c != '\x00')))).map
    (fun c => if c == '\r' then '\n' else c))

/-- Embedding of the `try` body of `apply_overlay` (steps 5a-5c of the spec):
update a known block, else discover a labelled block and update it, else create
a new read-only block and attach it.  Returns the `block_id` the session state
ends up with on success, plus the calls issued, in order.  On failure the
session's `block_id` is unchanged (the Python code assigns `state.block_id`
only after the corresponding awaited call has returned). -/
def reconcileOverlayBlock (b : Backend) (state : SessionOverlayState)
    (clean : String) : Except Unit (Option String) × List BCall :=
  if blockIdValid state.block_id then
    let bid := state.block_id.getD ""
    match b.modifyResult bid with
    | .ok _ => (.ok state.block_id, [.modifyBlock bid clean])
    | .error _ => (.error (), [.modifyBlock bid clean])
  else
    match b.listBlocksResult with
    | .error _ => (.error (), [.listBlocks])
    | .ok blocks =>
      match blocks.find? (fun bl => bl.label == OVERLAY_LABEL) with
      | some overlayBlock =>
        match b.modifyResult overlayBlock.id with
        | .ok _ => (.ok (some overlayBlock.id), [.listBlocks, .modifyBlock overlayBlock.id clean])
        | .error _ => (.error (), [.listBlocks, .modifyBlock overlayBlock.id clean])
      | none =>
        match b.createResult with
        | .error _ => (.error (), [.listBlocks, .createBlock clean])
        | .ok bid =>
          if bid == "" then
            (.error (), [.listBlocks, .createBlock clean])
          else
            match b.attachResult bid with
            | .ok _ => (.ok (some bid), [.listBlocks, .createBlock clean, .attachBlock bid])
            | .error _ => (.error (), [.listBlocks, .createBlock clean, .attachBlock bid])

/-- Embedding of `letta_client.MessageCreate(role=..., content=[TextContent(text=...)],
tool_call_id=...)`: the single text content is modelled directly. -/
structure MessageCreate where
  role : String
  text : String
  tool_call_id : Option String := none
deriving Repr, DecidableEq

/-- Result of one `apply_overlay(agent_id, session_id, system_content)` call:
the returned `(changed, fallback_messages)` pair, the updated session store,
and the backend calls issued, in order. -/
structure ApplyResult where
  changed : Bool
  fallbackMessages : List MessageCreate
  store : OverlayStore
  calls : List BCall
deriving Repr, DecidableEq

/-- Python truthiness of the `system_content` argument (`None` or `""`). -/
def contentFalsy : Option String → Bool
  | some s => s == ""
  | none => true

/-- Embedding of `ProxyOverlayManager.apply_overlay`.  The session store is
threaded explicitly and `now` is the monotonic clock used for both the initial
`get` and the final `set` of the session state. -/
def applyOverlay (b : Backend) (store : OverlayStore) (sessionId : String)
    (systemContent : Option String) (now : Nat) : ApplyResult :=
  let g := store.get sessionId now
  let state := g.1.getD {}
  let store1 := g.2
  if contentFalsy systemContent then
    { changed := false, fallbackMessages := [],
      store := store1.set sessionId state now, calls := [] }
  else
    let clean := cleanSystemContent (systemContent.getD "")
    let overlayHash := hashContent clean
    if state.overlay_hash == some overlayHash && blockIdValid state.block_id then
      { changed := false, fallbackMessages := [],
        store := store1.set sessionId state now, calls := [] }
    else
      match reconcileOverlayBlock b state clean with
      | (.ok newBid, calls) =>
        let state2 := { state with block_id := newBid,
                                   overlay_hash := some overlayHash,
                                   fallback_applied := false }
        { changed := true, fallbackMessages := [],
          store := store1.set sessionId state2 now, calls := calls }
      | (.error _, calls) =>
        let fallbacks :=
          if state.fallback_applied then ([] : List MessageCreate)
          else [{ role := "user", text := "[Proxy System Overlay]: " ++ clean }]
        let state2 := { state with fallback_applied := true,
                                   overlay_hash := some overlayHash }
        { changed := false, fallbackMessages := fallbacks,
          store := store1.set sessionId state2 now, calls := calls }

/-! ### `src/proxy_tool_bridge.py` : tool registry synchronization -/

/-- A backend tool as seen from `agents.tools.list`. -/
structure Tool where
  name : String
  id : String
deriving Repr, DecidableEq

/-- The two internal mappings of `ProxyToolBridge`:
`tool_mapping : OpenAI name → Letta tool id` and
`letta_name_mapping : Letta tool id → Letta name`, modelled as insertion-ordered
association lists with Python-dict update semantics. -/
structure BridgeState where
  toolMapping : List (String × String) := []
  lettaNameMapping : List (String × String) := []
deriving Repr, DecidableEq

/-- Python dict assignment `m[k] = v`. -/
def dictSet (m : List (String × String)) (k v : String) : List (String × String) :=
  if m.any (fun e => e.1 == k) then
    m.map (fun e => if e.1 == k then (k, v) else e)
  else m ++ [(k, v)]

/-- Embedding of `ProxyToolBridge._find_tool_id_by_name`. -/
def findToolIdByName (tools : List Tool) (name : String) : Option String :=
  (tools.find? (fun t => t.name == name)).map Tool.id

/-- Embedding of `ProxyToolBridge._remove_tool_from_mappings`. -/
def removeToolFromMappings (st : BridgeState) (toolId : String) : BridgeState :=
  { toolMapping := st.toolMapping.filter (fun e => e.2 != toolId),
    lettaNameMapping := st.lettaNameMapping.filter (fun e => e.1 != toolId) }

/-- The reserved-prefix check `name.startswith("proxy_")`. -/
def isProxyOwned (n : String) : Bool := "proxy_".data.isPrefixOf n.data

/-- The Python set comprehensions in `sync_agent_tools` iterate each distinct
name once; this models them as a first-occurrence deduplication of the
underlying list. -/
def dedupKeepFirst : List String → List String
  | [] => []
  | x :: xs => x :: (dedupKeepFirst xs).filter (fun y => y != x)

/-- A backend call issued by `sync_agent_tools`.  `attachTool` records the
upserted tool's registered name together with its id so that the resulting
attachment set can be computed. -/
inductive ToolCallOp
  | detachTool (id : String)
  | upsertTool (name : String)
  | attachTool (name : String) (id : String)
deriving Repr, DecidableEq

/-- The detach loop of `sync_agent_tools`: for each name to remove, look up its
id in the originally fetched tool list and — when the id is Python-truthy
(`if tool_id:` guards against both a `None` lookup miss and an empty-string
id) — detach it and drop it from the mappings.  A tool whose resolved id is
the empty string is skipped and stays attached. -/
def detachLoop (current : List Tool) (st : BridgeState) :
    List String → BridgeState × List ToolCallOp
  | [] => (st, [])
  | name :: rest =>
    match findToolIdByName current name with
    | some tid =>
      if tid != "" then
        let r := detachLoop current (removeToolFromMappings st tid) rest
        (r.1, .detachTool tid :: r.2)
      else detachLoop current st rest
    | none => detachLoop current st rest

/-- The add loop of `sync_agent_tools`: for each requested tool whose prefixed
name is in `to_add_names`, upsert a proxy tool (whose registered name is the
prefixed name and whose id is produced by the backend, modelled by `mkId`),
attach it, and record both mappings.  Like the Python code, the membership test
is against the fixed `to_add_names` set, so duplicated requested names each
trigger an upsert/attach. -/
def addLoop (mkId : String → String) (toAddNames : List String) (st : BridgeState) :
    List String → BridgeState × List ToolCallOp
  | [] => (st, [])
  | n :: rest =>
    let pfxName := "proxy_" ++ n
    if toAddNames.contains pfxName then
      let tid := mkId pfxName
      let st2 : BridgeState :=
        { toolMapping := dictSet st.toolMapping n tid,
          lettaNameMapping := dictSet st.lettaNameMapping tid pfxName }
      let r := addLoop mkId toAddNames st2 rest
      (r.1, .upsertTool pfxName :: .attachTool pfxName tid :: r.2)
    else addLoop mkId toAddNames st rest

/-- The final mapping-refresh loop of `sync_agent_tools`: for each requested
tool already present in the originally fetched list with a Python-truthy id
(`if existing_tool_id:`), refresh the two mapping entries; no backend call is
made. -/
def mapExistingLoop (current : List Tool) (st : BridgeState) :
    List String → BridgeState
  | [] => st
  | n :: rest =>
    let pfxName := "proxy_" ++ n
    match findToolIdByName current pfxName with
    | some tid =>
      if tid != "" then
        mapExistingLoop current
          { toolMapping := dictSet st.toolMapping n tid,
            lettaNameMapping := dictSet st.lettaNameMapping tid pfxName } rest
      else mapExistingLoop current st rest
    | none => mapExistingLoop current st rest

/-- Embedding of `ProxyToolBridge.sync_agent_tools`.  `current` is the agent's
tool list returned by the initial `agents.tools.list` fetch; `requested` is the
list of OpenAI tool names (`tool["function"]["name"]`) of the request —
`sync_agent_tools` consults nothing else of the tool schemas for its
attach/detach decisions.  The result is the updated bridge mappings and the
backend calls issued after the fetch, in order.  Python iterates `to_remove`
(a set) in unspecified order; the model iterates the deduplicated current-name
list in list order — the detaches are independent, so only the order of the log
depends on it. -/
def syncAgentTools (mkId : String → String) (st : BridgeState) (current : List Tool)
    (requested : List String) : BridgeState × List ToolCallOp :=
  let currentNames := current.map Tool.name
  let requestedLettaNames := requested.map (fun n => "proxy_" ++ n)
  let toRemove := (dedupKeepFirst currentNames).filter
    (fun n => isProxyOwned n && !(requestedLettaNames.contains n))
  let r := detachLoop current st toRemove
  if requested.isEmpty then
    (⟨[], []⟩, r.2)
  else
    let toAddNames := (dedupKeepFirst requestedLettaNames).filter
      (fun n => !(currentNames.contains n))
    let r2 := addLoop mkId toAddNames r.1 requested
    let st3 := mapExistingLoop current r2.1 requested
    (st3, r.2 ++ r2.2)

/-- The backend's attachment set after executing a log of sync operations
against the fetched tool list: detach removes the tool with that id, attach
appends the upserted tool, upsert itself does not change attachments. -/
def applyOps (current : List Tool) : List ToolCallOp → List Tool
  | [] => current
  | .detachTool tid :: rest => applyOps (current.filter (fun t => t.id != tid)) rest
  | .attachTool name tid :: rest => applyOps (current ++ [⟨name, tid⟩]) rest
  | .upsertTool _ :: rest => applyOps current rest

/-- The requested Letta-side (prefixed) tool names of a sync call. -/
def requestedLettaNamesOf (requested : List String) : List String :=
  requested.map (fun n => "proxy_" ++ n)

/-- The `to_remove` set of `sync_agent_tools`. -/
def toRemoveOf (current : List Tool) (requested : List String) : List String :=
  (dedupKeepFirst (current.map Tool.name)).filter
    (fun n => isProxyOwned n && !((requestedLettaNamesOf requested).contains n))

/-- The tool ids the detach loop resolves to a truthy (non-empty) value — and
therefore detaches — for `to_remove`. -/
def detachIdsOf (current : List Tool) (requested : List String) : List String :=
  (toRemoveOf current requested).filterMap
    (fun n => (findToolIdByName current n).filter (fun tid => tid != ""))

/-- The `to_add_names` set of `sync_agent_tools`. -/
def toAddNamesOf (current : List Tool) (requested : List String) : List String :=
  (dedupKeepFirst (requestedLettaNamesOf requested)).filter
    (fun n => !((current.map Tool.name).contains n))

/-- The requested names for which the add loop upserts and attaches a proxy
tool. -/
def addedNamesOf (current : List Tool) (requested : List String) : List String :=
  requested.filter (fun n => (toAddNamesOf current requested).contains ("proxy_" ++ n))

/-- The proxy tools the add loop attaches. -/
def newToolsOf (mkId : String → String) (current : List Tool)
    (requested : List String) : List Tool :=
  (addedNamesOf current requested).map (fun n => ⟨"proxy_" ++ n, mkId ("proxy_" ++ n)⟩)

/-! ### `src/main.py` : message normalization and the outbound batch -/

/-- One element of an OpenAI message's list-form content, as distinguished by
`_normalize_content`: a `{"type": "text", "text": ...}` dict, another dict with
a string `"content"` field, a bare string, or anything else (skipped). -/
inductive ContentBlock
  | textBlock (text : String)
  | contentBlock (content : String)
  | strBlock (s : String)
  | otherBlock
deriving Repr, DecidableEq

/-- The `content` field of an OpenAI chat message: absent/null, a string, or a
list of blocks. -/
inductive MsgContent
  | nullContent
  | strContent (s : String)
  | listContent (blocks : List ContentBlock)
deriving Repr, DecidableEq

/-- Embedding of `_normalize_content`. -/
def normalizeContent : MsgContent → String
  | .nullContent => ""
  | .strContent s => s
  | .listContent blocks =>
    String.join (blocks.map (fun bl =>
      match bl with
      | .textBlock t => t
      | .contentBlock c => c
      | .strBlock s => s
      | .otherBlock => ""))

/-- An OpenAI chat message as consumed by the batch construction: its role, its
content, and its optional `tool_call_id`. -/
structure ChatMessage where
  role : String
  content : MsgContent
  tool_call_id : Option String := none
deriving Repr, DecidableEq

/-- Embedding of `_extract_latest_user_message`: the most recent user-role turn
(note `if text: return text / return ""` collapses to returning the normalized
text unchanged). -/
def extractLatestUserMessage (messages : List ChatMessage) : Option String :=
  (messages.reverse.find? (fun m => m.role == "user")).map
    (fun m => normalizeContent m.content)

/-- The index of the last assistant message, if any. -/
def lastAssistantIdx (messages : List ChatMessage) : Option Nat :=
  ((messages.enum.filter (fun p => p.2.role == "assistant")).getLast?).map (fun p => p.1)

/-- Embedding of `_extract_trailing_tool_messages`: the tool-role messages
after the last assistant message (all tool messages when there is none). -/
def extractTrailingToolMessages (messages : List ChatMessage) : List ChatMessage :=
  let trailing := match lastAssistantIdx messages with
    | some i => messages.drop (i + 1)
    | none => messages
  trailing.filter (fun m => m.role == "tool")

/-- One entry of the request's `tool_results`: its `tool_call_id` (absent keys
give `None`) and its `result` payload (modelled as the string payload that
`json.dumps` then serializes). -/
structure ToolResult where
  tool_call_id : Option String := none
  result : String := ""
deriving Repr, DecidableEq

def jsonEscapeChar (c : Char) : List Char :=
  if c == '"' then ['\\', '"']
  else if c == '\\' then ['\\', '\\']
  else if c == '\n' then ['\\', 'n']
  else if c == '\r' then ['\\', 'r']
  else if c == '\t' then ['\\', 't']
  else if c.toNat == 8 then ['\\', 'b']
  else if c.toNat == 12 then ['\\', 'f']
  else if c.toNat < 32 then
    ['\\', 'u', '0', '0', hexDigitChar (c.toNat / 16), hexDigitChar (c.toNat % 16)]
  else [c]

/-- `json.dumps` of a string payload with `ensure_ascii=False`. -/
def jsonStr (s : String) : String :=
  "\"" ++ String.mk ((s.data.map jsonEscapeChar).flatten) ++ "\""

/-- Python truthiness of a `tool_call_id` (`None` and `""` are falsy). -/
def idTruthy : Option String → Bool
  | some s => s != ""
  | none => false

/-- The second loop of the batch construction in `chat_completions`: forward
trailing tool messages, skipping one whose truthy id is already in
`seen_tool_call_ids`, and adding each forwarded truthy id to the seen set. -/
def trailingToolLoop (seen : List (Option String)) :
    List ChatMessage → List MessageCreate
  | [] => []
  | m :: rest =>
    if idTruthy m.tool_call_id && seen.contains m.tool_call_id then
      trailingToolLoop seen rest
    else
      { role := "tool", text := normalizeContent m.content,
        tool_call_id := m.tool_call_id } ::
      trailingToolLoop
        (if idTruthy m.tool_call_id then m.tool_call_id :: seen else seen) rest

/-- Spec-side description of the trailing-tool-message forwarding, written
after the reconciliation policy as amended: a trailing tool message is
forwarded unless its tool-call id is truthy and equals the id of an explicit
tool result or of an earlier trailing tool message; `prevIds` accumulates the
ids of the earlier trailing messages. -/
def specTrailingKept (explicitIds : List (Option String))
    (prevIds : List (Option String)) : List ChatMessage → List MessageCreate
  | [] => []
  | m :: rest =>
    if idTruthy m.tool_call_id &&
        (explicitIds.contains m.tool_call_id || prevIds.contains m.tool_call_id) then
      specTrailingKept explicitIds (m.tool_call_id :: prevIds) rest
    else
      { role := "tool", text := normalizeContent m.content,
        tool_call_id := m.tool_call_id } ::
      specTrailingKept explicitIds (m.tool_call_id :: prevIds) rest

/-- The tool message built for one explicit tool result (first loop of the
batch construction): its payload is `json.dumps(result)`. -/
def explicitToolMessages (toolResults : List ToolResult) : List MessageCreate :=
  toolResults.map (fun tr =>
    { role := "tool", text := jsonStr tr.result, tool_call_id := tr.tool_call_id })

/-- The tool message forwarded for a trailing transcript tool message. -/
def toolMsgOfChat (m : ChatMessage) : MessageCreate :=
  { role := "tool", text := normalizeContent m.content, tool_call_id := m.tool_call_id }

/-- The at-most-one user message carrying the latest user turn. -/
def latestUserMessages (messages : List ChatMessage) : List MessageCreate :=
  match extractLatestUserMessage messages with
  | some t => [{ role := "user", text := t }]
  | none => []

/-- Embedding of the outbound-batch construction in `chat_completions`
(lines 394-433 of `main.py`): fallback messages, then one tool message per
explicit tool result (whose ids seed `seen_tool_call_ids`), then the trailing
transcript tool messages not already seen, then at most one message carrying
the latest user turn. -/
def buildBatch (fallbackMessages : List MessageCreate) (toolResults : List ToolResult)
    (messages : List ChatMessage) : List MessageCreate :=
  let seen0 := toolResults.map ToolResult.tool_call_id
  let trailingMsgs := trailingToolLoop seen0 (extractTrailingToolMessages messages)
  fallbackMessages ++ explicitToolMessages toolResults ++ trailingMsgs ++
    latestUserMessages messages

/-- The outbound batch exactly as the claim words it: fallback messages, the
explicit tool-result messages in order, then the trailing transcript tool
messages whose tool-call id is not already covered by an explicit tool result
(and nothing else filtered), then the latest user turn. -/
def claimBatch (fallbackMessages : List MessageCreate) (toolResults : List ToolResult)
    (messages : List ChatMessage) : List MessageCreate :=
  fallbackMessages ++ explicitToolMessages toolResults ++
    ((extractTrailingToolMessages messages).filter (fun m =>
      !((toolResults.map ToolResult.tool_call_id).contains m.tool_call_id))).map toolMsgOfChat ++
    latestUserMessages messages

/-! ### `src/main.py` : the SSE stream generators -/

/-- A typed event of the backend message stream, as distinguished by the
`message_type` / `isinstance` cascade in `event_stream` (the legacy
`isinstance` branches produce the same chunks as the corresponding
`message_type` branches). -/
inductive LettaStreamEvent
  | reasoningMessage (reasoning : String)
  | assistantMessage (content : String)
  | toolCallMessage (callId : String) (name : String) (args : String)
  | stopReason (reason : String)
  | unknownEvent
deriving Repr, DecidableEq

/-- The `delta` object of an emitted chunk. -/
inductive Delta
  | roleDelta (role : String)
  | textDelta (content : Option String) (reasoning : Option String)
  | toolCallsDelta (callId : String) (name : String) (args : String)
  | emptyDelta
deriving Repr, DecidableEq

/-- One SSE frame of the response stream. -/
inductive SSEFrame
  | chunk (id : String) (created : Nat) (model : String) (delta : Delta)
      (finishReason : Option String)
  | errorEvent (id : String) (message : String)
  | doneFrame
deriving Repr, DecidableEq

/-- The chunk emitted for one backend stream event (`none` for events of
unknown type, which the loop skips). -/
def chunkOfEvent (id : String) (created : Nat) (model : String) :
    LettaStreamEvent → Option SSEFrame
  | .reasoningMessage r => some (.chunk id created model (.textDelta none (some r)) none)
  | .assistantMessage c => some (.chunk id created model (.textDelta (some c) none) none)
  | .toolCallMessage cid name args =>
      some (.chunk id created model (.toolCallsDelta cid name args) none)
  | .stopReason r => some (.chunk id created model .emptyDelta (some r))
  | .unknownEvent => none

/-- Embedding of the `event_stream` generator: the primer chunk carrying only
the assistant role, then one chunk per recognized backend event; if the backend
stream raises after delivering `events`, one in-band error event; and the
terminator frame in every case.  `created` abstracts the per-chunk
`int(time.time())` samples. -/
def eventStream (id : String) (created : Nat) (model : String)
    (events : List LettaStreamEvent) (streamError : Option String) : List SSEFrame :=
  [.chunk id created model (.roleDelta "assistant") none]
  ++ events.filterMap (chunkOfEvent id created model)
  ++ (match streamError with
      | some msg => [.errorEvent id ("Streaming error: " ++ msg)]
      | none => [])
  ++ [.doneFrame]

/-- Embedding of the `empty_stream` generator used when a streaming request
produces no outbound messages: primer then terminator. -/
def emptyStream (id : String) (created : Nat) (model : String) : List SSEFrame :=
  [.chunk id created model (.roleDelta "assistant") none, .doneFrame]

def braceL : String := "\x7b"

def braceR : String := "\x7d"

def jsonOptStr : Option String → String
  | none => "null"
  | some s => jsonStr s

/-- Serialization of a delta to the JSON text `json.dumps` produces for it
(`ensure_ascii=False`, default separators, insertion-ordered keys). -/
def renderDelta : Delta → String
  | .roleDelta r => braceL ++ "\"role\": " ++ jsonStr r ++ braceR
  | .textDelta c r =>
      braceL ++ "\"content\": " ++ jsonOptStr c ++ ", \"reasoning\": " ++ jsonOptStr r ++ braceR
  | .toolCallsDelta cid name args =>
      braceL ++ "\"tool_calls\": [" ++ braceL ++ "\"index\": 0, \"id\": " ++ jsonStr cid ++
        ", \"type\": \"function\", \"function\": " ++ braceL ++ "\"name\": " ++ jsonStr name ++
        ", \"arguments\": " ++ jsonStr args ++ braceR ++ braceR ++ "]" ++ braceR
  | .emptyDelta => braceL ++ braceR

/-- Serialization of one frame to the exact `data: ...\n\n` text yielded by the
generators. -/
def renderFrame : SSEFrame → String
  | .chunk id created model delta finishReason =>
      "data: " ++ braceL ++ "\"id\": " ++ jsonStr id ++
        ", \"object\": \"chat.completion.chunk\", \"created\": " ++ toString created ++
        ", \"model\": " ++ jsonStr model ++ ", \"choices\": [" ++ braceL ++
        "\"index\": 0, \"delta\": " ++ renderDelta delta ++
        ", \"finish_reason\": " ++ jsonOptStr finishReason ++ braceR ++ "]" ++ braceR ++ "\n\n"
  | .errorEvent id message =>
      "data: " ++ braceL ++ "\"id\": " ++ jsonStr id ++
        ", \"object\": \"error\", \"error\": " ++ braceL ++ "\"message\": " ++ jsonStr message ++
        ", \"type\": \"streaming_error\"" ++ braceR ++ braceR ++ "\n\n"
  | .doneFrame => "data: [DONE]\n\n"

def isErrorFrame : SSEFrame → Bool
  | .errorEvent _ _ => true
  | _ => false

/-! ### Verification-side definitions (spec formulations and test fixtures) -/

/-- The last `cap` elements of a list: the survivors of the while-loop eviction
in `TTLCache.set` / `SessionOverlayStore.set`. -/
def dropTo {α : Type} (cap : Nat) (l : List α) : List α := l.drop (l.length - cap)

/-- Driver for the eviction claim: insert one session state per key, in order,
each insertion at time `t`. -/
def insertAll (store : OverlayStore) (f : String → SessionOverlayState) (t : Nat) :
    List String → OverlayStore
  | [] => store
  | k :: ks => insertAll (store.set k (f k) t) f t ks

/-- Spec formulation of session-key derivation as amended: a pure function of
the inputs — the verbatim truthy header key, else `agent_id:sha256(raw
content)` for truthy content, else `agent_id:default`. -/
def deriveKeySpecContent (agentId : String) (systemContent : Option String) : String :=
  match systemContent with
  | some c => if c != "" then agentId ++ ":" ++ hashContent c else agentId ++ ":default"
  | none => agentId ++ ":default"

def deriveKeySpec (agentId : String) (systemContent : Option String)
    (headers : List (String × String)) : String :=
  match orFalsy (hlookup headers "x-session-id") (hlookup headers "X-Session-Id") with
  | some v => if v != "" then v else deriveKeySpecContent agentId systemContent
  | none => deriveKeySpecContent agentId systemContent

/-- Invariant of the derived-session-key cache: every stored value is its own
key (the only writes are `set key key`). -/
def cacheValuesAreKeys (c : TTLCache) : Prop :=
  ∀ e ∈ c.entries, e.2.2 = e.1

/-- A backend on which every call succeeds: no overlay block is attached yet,
creation yields block id `blk-1`. -/
def succeedingBackend : Backend :=
  { modifyResult := fun _ => .ok (), listBlocksResult := .ok [],
    createResult := .ok "blk-1", attachResult := fun _ => .ok () }

/-- A backend on which every mutation call fails (the list fetch succeeds). -/
def failingBackend : Backend :=
  { modifyResult := fun _ => .error (), listBlocksResult := .ok [],
    createResult := .error (), attachResult := fun _ => .error () }

/-- An empty session store / derived-key cache with the manager's default
capacity and TTL. -/
def emptyStore : OverlayStore := { entries := [], maxSessions := 100, ttlSeconds := 10800 }

def emptyCache : TTLCache := { entries := [], maxEntries := 100, ttlSeconds := 10800 }

/-- A populated derived-key cache satisfying the cache invariant, with an old
timestamp. -/
def populatedCache : TTLCache :=
  { entries := [("k1", 0, "k1")], maxEntries := 100, ttlSeconds := 10800 }

/-- Transcript fixture for the batch-ordering instance: a system turn, a user
turn `U`, and nothing after the (absent) assistant turn. -/
def demoTranscript : List ChatMessage :=
  [{ role := "system", content := .strContent "You are helpful." },
   { role := "user", content := .strContent "U" }]

/-- Transcript fixture with two trailing tool messages sharing one tool-call
id. -/
def dupTrailingTranscript : List ChatMessage :=
  [{ role := "tool", content := .strContent "r1", tool_call_id := some "id1" },
   { role := "tool", content := .strContent "r2", tool_call_id := some "id1" }]

/-- Tool-list fixture for the built-ins-preserved instance. -/
def demoCurrentTools : List Tool :=
  [{ name := "proxy_A", id := "t1" }, { name := "proxy_B", id := "t2" },
   { name := "builtin_X", id := "t3" }]

def demoMkId : String → String := fun n => "id-" ++ n

/-- Tool-list fixture for the falsy-id counterexample: one attached proxy tool
whose backend id is the empty string (Python-falsy), with pairwise-distinct
names and ids. -/
def falsyIdTools : List Tool := [{ name := "proxy_B", id := "" }]

/-- Store fixture for the no-retry instance: session `s1` holds a state with a
recorded block handle and a stale content hash. -/
def staleState : SessionOverlayState :=
  { overlay_hash := some "old-hash", block_id := some "blk-9",
    fallback_applied := false, last_updated := 0 }

def staleStore : OverlayStore :=
  { entries := [("s1", staleState)], maxSessions := 100, ttlSeconds := 10800 }

/-! ## General lemmas -/

theorem find?_append_none {α : Type} (p : α → Bool) (l₁ l₂ : List α)
    (h : ∀ x ∈ l₁, p x = false) : (l₁ ++ l₂).find? p = l₂.find? p := by
  induction l₁ with
  | nil => rfl
  | cons a l ih =>
    have ha : p a = false := h a (List.mem_cons_self a l)
    rw [List.cons_append, List.find?_cons_of_neg _ (by simp [ha])]
    exact ih (fun x hx => h x (List.mem_cons_of_mem a hx))

theorem find?_append_left {α : Type} (p : α → Bool) (l₁ l₂ : List α) (a : α)
    (h : l₁.find? p = some a) : (l₁ ++ l₂).find? p = some a := by
  induction l₁ with
  | nil => cases h
  | cons x l ih =>
    rw [List.cons_append]
    by_cases hx : p x
    · rw [List.find?_cons_of_pos _ hx] at h ⊢
      exact h
    · rw [List.find?_cons_of_neg _ hx] at h ⊢
      exact ih h

theorem find?_append_of_none {α : Type} (p : α → Bool) (l₁ l₂ : List α)
    (h : l₁.find? p = none) : (l₁ ++ l₂).find? p = l₂.find? p :=
  find?_append_none p l₁ l₂ (fun x hx => by
    have hx2 := List.find?_eq_none.mp h x hx
    simpa using hx2)

theorem dropTo_length_le {α : Type} (cap : Nat) (l : List α) :
    (dropTo cap l).length ≤ cap := by
  simp only [dropTo, List.length_drop]
  omega

theorem dropTo_of_length_le {α : Type} (cap : Nat) (l : List α)
    (h : l.length ≤ cap) : dropTo cap l = l := by
  simp [dropTo, Nat.sub_eq_zero_of_le h]

theorem dropTo_subset {α : Type} (cap : Nat) (l : List α) {x : α}
    (h : x ∈ dropTo cap l) : x ∈ l := List.mem_of_mem_drop h

theorem dropTo_idem_append {α : Type} (cap : Nat) (l₁ l₂ : List α) :
    dropTo cap (dropTo cap l₁ ++ l₂) = dropTo cap (l₁ ++ l₂) := by
  rcases le_or_lt l₁.length cap with h | h
  · rw [dropTo_of_length_le cap l₁ h]
  · simp only [dropTo, List.length_append, List.length_drop]
    have hd : l₁.length - cap ≤ l₁.length := Nat.sub_le _ _
    rw [← List.drop_append_of_le_length hd, List.drop_drop]
    congr 1
    omega

theorem find?_map_pair_of_mem {α : Type} [DecidableEq α] (g : α → SessionOverlayState)
    (ks : List α) (k : α) (hk : k ∈ ks) :
    ((ks.map (fun x => (x, g x))).find? (fun e => e.1 == k)) = some (k, g k) := by
  induction ks with
  | nil => cases hk
  | cons x xs ih =>
    by_cases hx : x = k
    · subst hx
      rw [List.map_cons, List.find?_cons_of_pos _ (by simp)]
    · rcases List.mem_cons.mp hk with h | h
      · exact absurd h.symm hx
      · rw [List.map_cons, List.find?_cons_of_neg _ (by simp [hx])]
        exact ih h

/-! ## Session overlay store: capacity eviction (C8) -/

theorem OverlayStore.set_entries (s : OverlayStore) (k : String)
    (st : SessionOverlayState) (t : Nat) :
    (s.set k st t).entries =
      dropTo s.maxSessions
        (s.entries.filter (fun e => e.1 != k) ++ [(k, { st with last_updated := t })]) := rfl

theorem OverlayStore.set_maxSessions (s : OverlayStore) (k : String)
    (st : SessionOverlayState) (t : Nat) :
    (s.set k st t).maxSessions = s.maxSessions := rfl

theorem OverlayStore.set_ttlSeconds (s : OverlayStore) (k : String)
    (st : SessionOverlayState) (t : Nat) :
    (s.set k st t).ttlSeconds = s.ttlSeconds := rfl

theorem OverlayStore.set_entries_fresh (s : OverlayStore) (k : String)
    (st : SessionOverlayState) (t : Nat)
    (h : ∀ e ∈ s.entries, e.1 ≠ k) :
    (s.set k st t).entries =
      dropTo s.maxSessions (s.entries ++ [(k, { st with last_updated := t })]) := by
  rw [OverlayStore.set_entries]
  congr 1
  rw [List.filter_eq_self.mpr]
  intro e he
  simpa using h e he

theorem insertAll_spec (f : String → SessionOverlayState) (t : Nat) (ks : List String) :
    ∀ s : OverlayStore, ks.Nodup → (∀ k ∈ ks, ∀ e ∈ s.entries, e.1 ≠ k) →
    s.entries.length ≤ s.maxSessions →
    (insertAll s f t ks).entries =
      dropTo s.maxSessions
        (s.entries ++ ks.map (fun k => (k, { f k with last_updated := t }))) ∧
    (insertAll s f t ks).maxSessions = s.maxSessions ∧
    (insertAll s f t ks).ttlSeconds = s.ttlSeconds := by
  induction ks with
  | nil =>
    intro s _ _ hlen
    simpa [insertAll] using (dropTo_of_length_le _ _ hlen).symm
  | cons k ks ih =>
    intro s hnd hfresh hlen
    have hndk : k ∉ ks := (List.nodup_cons.mp hnd).1
    have hnd2 : ks.Nodup := (List.nodup_cons.mp hnd).2
    have hfk : ∀ e ∈ s.entries, e.1 ≠ k :=
      fun e he => hfresh k (List.mem_cons_self _ _) e he
    have hset : (s.set k (f k) t).entries =
        dropTo s.maxSessions (s.entries ++ [(k, { f k with last_updated := t })]) :=
      OverlayStore.set_entries_fresh s k (f k) t hfk
    have hfresh2 : ∀ k2 ∈ ks, ∀ e ∈ (s.set k (f k) t).entries, e.1 ≠ k2 := by
      intro k2 hk2 e he
      rw [hset] at he
      rcases List.mem_append.mp (dropTo_subset _ _ he) with h | h
      · exact hfresh k2 (List.mem_cons_of_mem _ hk2) e h
      · have he2 : e = (k, { f k with last_updated := t }) := by simpa using h
        subst he2
        show k ≠ k2
        intro hcontra
        exact hndk (hcontra ▸ hk2)
    have hlen2 : (s.set k (f k) t).entries.length ≤ (s.set k (f k) t).maxSessions := by
      rw [hset, OverlayStore.set_maxSessions]
      exact dropTo_length_le _ _
    obtain ⟨he, hm, ht⟩ := ih (s.set k (f k) t) hnd2 hfresh2 hlen2
    refine ⟨?_, by rwa [OverlayStore.set_maxSessions] at hm,
      by rwa [OverlayStore.set_ttlSeconds] at ht⟩
    rw [insertAll, he, OverlayStore.set_maxSessions, hset, dropTo_idem_append,
      List.append_assoc]
    rfl

/-- C8: inserting `max_entries + 1` sessions with pairwise-distinct keys into
an empty session overlay store of capacity `max_entries` (all insertions at
time `t`, read back at a time `t2` within the TTL, so no TTL expiry occurs)
evicts exactly the least-recently-touched session: a subsequent `get` on the
first key returns absent, while every other inserted key is still
retrievable. -/
theorem eviction_drops_least_recent (cap ttl t t2 : Nat) (k0 : String)
    (rest : List String) (f : String → SessionOverlayState)
    (hnd : (k0 :: rest).Nodup) (hlen : rest.length = cap) (httl : t2 - t ≤ ttl) :
    ((insertAll ⟨[], cap, ttl⟩ f t (k0 :: rest)).get k0 t2).1 = none ∧
    ∀ k ∈ rest, (((insertAll ⟨[], cap, ttl⟩ f t (k0 :: rest)).get k t2).1).isSome = true := by
  obtain ⟨he, hm, ht⟩ := insertAll_spec f t (k0 :: rest) ⟨[], cap, ttl⟩ hnd
    (by intro k _ e he; cases he) (by simp)
  have hk0 : k0 ∉ rest := (List.nodup_cons.mp hnd).1
  have hentries : (insertAll ⟨[], cap, ttl⟩ f t (k0 :: rest)).entries =
      rest.map (fun k => (k, { f k with last_updated := t })) := by
    rw [he]
    simp only [List.nil_append, dropTo, List.length_map, List.length_cons, hlen,
      List.map_cons]
    have h1 : cap + 1 - cap = 1 := by omega
    rw [h1, List.drop_one]
    rfl
  constructor
  · unfold OverlayStore.get
    rw [hentries]
    have : (rest.map (fun k => (k, { f k with last_updated := t }))).find?
        (fun e => e.1 == k0) = none := by
      rw [List.find?_eq_none]
      intro e he2
      obtain ⟨k, hk, hek⟩ := List.mem_map.mp he2
      simp only [← hek]
      simp only [beq_iff_eq]
      intro hcontra
      exact hk0 (hcontra ▸ hk)
    rw [this]
  · intro k hk
    unfold OverlayStore.get
    rw [hentries, find?_map_pair_of_mem (fun k => { f k with last_updated := t }) rest k hk]
    have hts : (insertAll ⟨[], cap, ttl⟩ f t (k0 :: rest)).ttlSeconds = ttl := ht
    have : ¬ (t2 - t > (insertAll ⟨[], cap, ttl⟩ f t (k0 :: rest)).ttlSeconds) := by
      rw [hts]
      omega
    simp [this]

/-- Witness for C8 at a concrete instance: capacity 2, keys a, b, c. -/
theorem eviction_drops_least_recent_witness :
    ((["a", "b", "c"] : List String).Nodup ∧ (["b", "c"] : List String).length = 2 ∧
      (0 : Nat) - 0 ≤ 5) ∧
    (((insertAll ⟨[], 2, 5⟩ (fun _ => {}) 0 ("a" :: ["b", "c"])).get "a" 0).1 = none ∧
      ∀ k ∈ ["b", "c"],
        (((insertAll ⟨[], 2, 5⟩ (fun _ => {}) 0 ("a" :: ["b", "c"])).get k 0).1).isSome = true) :=
  ⟨⟨by decide, by decide, by decide⟩,
   eviction_drops_least_recent 2 5 0 0 "a" ["b", "c"] (fun _ => {})
     (by decide) (by decide) (by decide)⟩

/-! ## Streaming frame sequence (C9) -/

theorem chunkOfEvent_shape (id : String) (created : Nat) (model : String)
    (ev : LettaStreamEvent) (fr : SSEFrame)
    (h : chunkOfEvent id created model ev = some fr) :
    ∃ d finish, fr = .chunk id created model d finish := by
  cases ev <;> simp [chunkOfEvent] at h <;> exact ⟨_, _, h.symm⟩

/-- C9: every streaming response begins with a primer chunk whose delta is
exactly the assistant role marker (no content), ends with the literal
`data: [DONE]` terminator frame, which appears exactly once and on every path;
a backend failure after some events have been delivered adds exactly one
in-band error event (and none is emitted when the backend stream completes);
the degenerate empty stream is the primer followed by the terminator. -/
theorem stream_primer_error_terminator (id : String) (created : Nat) (model : String)
    (events : List LettaStreamEvent) (streamError : Option String) :
    (eventStream id created model events streamError).head? =
      some (.chunk id created model (.roleDelta "assistant") none) ∧
    (eventStream id created model events streamError).getLast? = some .doneFrame ∧
    ((eventStream id created model events streamError).map renderFrame).getLast? =
      some "data: [DONE]\n\n" ∧
    (eventStream id created model events streamError).countP
      (fun f => f == SSEFrame.doneFrame) = 1 ∧
    (eventStream id created model events streamError).countP isErrorFrame =
      (match streamError with | some _ => 1 | none => 0) ∧
    emptyStream id created model =
      [.chunk id created model (.roleDelta "assistant") none, .doneFrame] := by
  have hmid : ∀ fr ∈ events.filterMap (chunkOfEvent id created model),
      (fr == SSEFrame.doneFrame) = false ∧ isErrorFrame fr = false := by
    intro fr hfr
    obtain ⟨ev, _, hev⟩ := List.mem_filterMap.mp hfr
    obtain ⟨d, finish, rfl⟩ := chunkOfEvent_shape id created model ev fr hev
    exact ⟨by simp, rfl⟩
  have hcnt0 : (events.filterMap (chunkOfEvent id created model)).countP
      (fun f => f == SSEFrame.doneFrame) = 0 :=
    List.countP_eq_zero.mpr (fun fr hfr => by simp [(hmid fr hfr).1])
  have hcnt1 : (events.filterMap (chunkOfEvent id created model)).countP isErrorFrame = 0 :=
    List.countP_eq_zero.mpr (fun fr hfr => by simp [(hmid fr hfr).2])
  refine ⟨by simp [eventStream], ?_, ?_, ?_, ?_, rfl⟩
  · unfold eventStream
    rw [List.getLast?_concat]
  · unfold eventStream
    rw [List.map_append, List.map_cons, List.map_nil, List.getLast?_concat]
    rfl
  · unfold eventStream
    cases streamError <;>
      simp [List.countP_append, List.countP_cons, hcnt0, isErrorFrame]
  · unfold eventStream
    cases streamError <;>
      simp [List.countP_append, List.countP_cons, hcnt1, isErrorFrame]

/-! ## Outbound batch composition (C4) -/

theorem trailingToolLoop_eq_spec (msgs : List ChatMessage) :
    ∀ (seen explicitIds prevIds : List (Option String)),
    (∀ id, idTruthy id = true →
      seen.contains id = (explicitIds.contains id || prevIds.contains id)) →
    trailingToolLoop seen msgs = specTrailingKept explicitIds prevIds msgs := by
  induction msgs with
  | nil => intro _ _ _ _; rfl
  | cons m rest ih =>
    intro seen explicitIds prevIds hinv
    simp only [trailingToolLoop, specTrailingKept]
    by_cases ht : idTruthy m.tool_call_id = true
    · by_cases hmem :
          (explicitIds.contains m.tool_call_id || prevIds.contains m.tool_call_id) = true
      · have hseen : seen.contains m.tool_call_id = true := by
          rw [hinv m.tool_call_id ht]; exact hmem
        simp only [ht, hseen, hmem, Bool.true_and, if_true]
        refine ih seen explicitIds (m.tool_call_id :: prevIds) ?_
        intro id hid
        by_cases hide : id = m.tool_call_id
        · subst hide
          rw [hinv m.tool_call_id hid, List.contains_cons, hmem]
          simp
        · have hbe : (id == m.tool_call_id) = false := by simp [hide]
          rw [hinv id hid, List.contains_cons, hbe]
          simp
      · rw [Bool.not_eq_true] at hmem
        have hseen : seen.contains m.tool_call_id = false := by
          rw [hinv m.tool_call_id ht]; exact hmem
        simp only [ht, hseen, hmem, Bool.true_and, Bool.false_eq_true, if_false, if_true,
          List.cons.injEq, true_and]
        refine ih (m.tool_call_id :: seen) explicitIds (m.tool_call_id :: prevIds) ?_
        intro id hid
        rw [List.contains_cons, List.contains_cons, hinv id hid]
        by_cases hide : id = m.tool_call_id
        · subst hide
          simp
        · have hbe : (id == m.tool_call_id) = false := by simp [hide]
          rw [hbe]
          simp
    · rw [Bool.not_eq_true] at ht
      simp only [ht, Bool.false_and, Bool.false_eq_true, if_false, List.cons.injEq, true_and]
      refine ih seen explicitIds (m.tool_call_id :: prevIds) ?_
      intro id hid
      rw [List.contains_cons, hinv id hid]
      have hne : id ≠ m.tool_call_id := by
        intro hcontra
        rw [hcontra, ht] at hid
        cases hid
      have hbe : (id == m.tool_call_id) = false := by simp [hne]
      rw [hbe]
      simp

/-- C4 counterexample: with no explicit tool results and a transcript whose two
trailing tool messages share a tool-call id, the code forwards only the first
(the forwarded ids are added to the seen set), while the batch described by the
claim — filtering only against explicit tool-result ids — keeps both. -/
theorem batch_claim_counterexample :
    buildBatch [] [] dupTrailingTranscript ≠ claimBatch [] [] dupTrailingTranscript := by
  decide

/-- C4 (amended): the outbound batch is exactly the fallback messages, then
one tool message per explicit tool result in order, then the transcript's
trailing tool messages whose truthy tool-call id is neither the id of an
explicit tool result nor of an earlier trailing tool message, then at most one
message carrying the most recent user turn; in particular with fallback `[F]`,
tool results `[T1, T2]` and latest user message `U`, the batch is
`[F, T1, T2, U]`. -/
theorem batch_composition (fb : List MessageCreate) (trs : List ToolResult)
    (msgs : List ChatMessage) :
    buildBatch fb trs msgs =
      fb ++ explicitToolMessages trs ++
        specTrailingKept (trs.map ToolResult.tool_call_id) []
          (extractTrailingToolMessages msgs) ++
        latestUserMessages msgs ∧
    buildBatch [{ role := "user", text := "F" }]
        [{ tool_call_id := some "ta", result := "T1" },
         { tool_call_id := some "tb", result := "T2" }] demoTranscript =
      [{ role := "user", text := "F" },
       { role := "tool", text := "\"T1\"", tool_call_id := some "ta" },
       { role := "tool", text := "\"T2\"", tool_call_id := some "tb" },
       { role := "user", text := "U" }] := by
  refine ⟨?_, by decide⟩
  simp only [buildBatch]
  rw [trailingToolLoop_eq_spec (extractTrailingToolMessages msgs)
    (trs.map ToolResult.tool_call_id) (trs.map ToolResult.tool_call_id) []
    (fun id _ => by simp)]

/-! ## Tool registry synchronization (C2, C7) -/

theorem isProxyOwned_concat (s : String) : isProxyOwned ("proxy_" ++ s) = true := by
  unfold isProxyOwned
  rw [String.data_append]
  exact List.isPrefixOf_iff_prefix.mpr (List.prefix_append _ _)

theorem mem_dedupKeepFirst (a : String) (l : List String) :
    a ∈ dedupKeepFirst l ↔ a ∈ l := by
  induction l with
  | nil => simp [dedupKeepFirst]
  | cons x xs ih =>
    simp only [dedupKeepFirst, List.mem_cons]
    constructor
    · rintro (rfl | h)
      · exact .inl rfl
      · exact .inr (ih.mp (List.mem_filter.mp h).1)
    · rintro (rfl | h)
      · exact .inl rfl
      · by_cases hx : a = x
        · exact .inl hx
        · refine .inr (List.mem_filter.mpr ⟨ih.mpr h, ?_⟩)
          simp [hx]

theorem findToolIdByName_mem (tools : List Tool) (nm tid : String)
    (h : findToolIdByName tools nm = some tid) :
    ∃ t ∈ tools, t.name = nm ∧ t.id = tid := by
  unfold findToolIdByName at h
  cases hf : tools.find? (fun t => t.name == nm) with
  | none => rw [hf] at h; cases h
  | some t =>
    rw [hf] at h
    have hid : t.id = tid := by simpa using h
    exact ⟨t, List.mem_of_find?_eq_some hf, by simpa using List.find?_some hf, hid⟩

theorem findToolIdByName_isSome_of_mem (tools : List Tool) (nm : String)
    (h : nm ∈ tools.map Tool.name) : ∃ tid, findToolIdByName tools nm = some tid := by
  obtain ⟨t, ht, rfl⟩ := List.mem_map.mp h
  have hs : (tools.find? (fun u => u.name == t.name)).isSome := by
    rw [List.find?_isSome]
    exact ⟨t, ht, by simp⟩
  obtain ⟨u, hu⟩ := Option.isSome_iff_exists.mp hs
  refine ⟨u.id, ?_⟩
  unfold findToolIdByName
  rw [hu]
  rfl

theorem findToolIdByName_append_left (l₁ l₂ : List Tool) (n tid : String)
    (h : findToolIdByName l₁ n = some tid) :
    findToolIdByName (l₁ ++ l₂) n = some tid := by
  unfold findToolIdByName at h ⊢
  cases hf : l₁.find? (fun t => t.name == n) with
  | none => rw [hf] at h; cases h
  | some u =>
    rw [hf] at h
    rw [find?_append_left _ l₁ l₂ u hf]
    exact h

theorem findToolIdByName_append_right (l₁ l₂ : List Tool) (n : String)
    (h : findToolIdByName l₁ n = none) :
    findToolIdByName (l₁ ++ l₂) n = findToolIdByName l₂ n := by
  unfold findToolIdByName at h ⊢
  cases hf : l₁.find? (fun t => t.name == n) with
  | none => rw [find?_append_of_none _ l₁ l₂ hf]
  | some u => rw [hf] at h; cases h

theorem detachLoop_ops (current : List Tool) (names : List String) :
    ∀ st : BridgeState, (detachLoop current st names).2 =
      (names.filterMap
        (fun n => (findToolIdByName current n).filter (fun tid => tid != ""))).map
        ToolCallOp.detachTool := by
  induction names with
  | nil => intro st; rfl
  | cons n rest ih =>
    intro st
    simp only [detachLoop, List.filterMap_cons]
    cases h : findToolIdByName current n with
    | none => simp [h, Option.filter, ih st]
    | some tid =>
      cases hne : (tid != "") with
      | false => simp [h, hne, Option.filter, ih st]
      | true => simp [h, hne, Option.filter, ih (removeToolFromMappings st tid)]

theorem addLoop_ops (mkId : String → String) (toAdd : List String) (ns : List String) :
    ∀ st : BridgeState, (addLoop mkId toAdd st ns).2 =
      (ns.filter (fun n => toAdd.contains ("proxy_" ++ n))).flatMap
        (fun n => [ToolCallOp.upsertTool ("proxy_" ++ n),
                   ToolCallOp.attachTool ("proxy_" ++ n) (mkId ("proxy_" ++ n))]) := by
  induction ns with
  | nil => intro st; rfl
  | cons n rest ih =>
    intro st
    simp only [addLoop, List.filter_cons]
    cases h : toAdd.contains ("proxy_" ++ n) with
    | false => simp [h, ih st]
    | true => simp [h, ih]

theorem applyOps_append (ops1 ops2 : List ToolCallOp) :
    ∀ c : List Tool, applyOps c (ops1 ++ ops2) = applyOps (applyOps c ops1) ops2 := by
  induction ops1 with
  | nil => intro c; rfl
  | cons op rest ih =>
    intro c
    cases op <;> simp only [List.cons_append, applyOps] <;> exact ih _

theorem applyOps_detachList (ids : List String) :
    ∀ c : List Tool, applyOps c (ids.map ToolCallOp.detachTool) =
      c.filter (fun t => !(ids.contains t.id)) := by
  induction ids with
  | nil => intro c; simp [applyOps]
  | cons i rest ih =>
    intro c
    simp only [List.map_cons, applyOps]
    rw [ih]
    rw [List.filter_filter]
    apply List.filter_congr
    intro t _
    simp only [List.contains_cons]
    cases h1 : (t.id == i) <;> cases h2 : rest.contains t.id <;> simp [h1, h2, bne]

theorem applyOps_upsertAttach (ns : List String) (nmf idf : String → String) :
    ∀ c : List Tool,
      applyOps c (ns.flatMap (fun n => [ToolCallOp.upsertTool (nmf n),
          ToolCallOp.attachTool (nmf n) (idf n)])) =
        c ++ ns.map (fun n => ⟨nmf n, idf n⟩) := by
  induction ns with
  | nil => intro c; simp [applyOps]
  | cons n rest ih =>
    intro c
    rw [List.flatMap_cons]
    show applyOps c (ToolCallOp.upsertTool (nmf n) :: ToolCallOp.attachTool (nmf n) (idf n) ::
        rest.flatMap (fun n => [ToolCallOp.upsertTool (nmf n),
          ToolCallOp.attachTool (nmf n) (idf n)])) = _
    simp only [applyOps]
    conv_rhs => rw [List.map_cons, List.append_cons]
    exact ih (c ++ [⟨nmf n, idf n⟩])

theorem syncAgentTools_ops (mkId : String → String) (st : BridgeState) (current : List Tool)
    (requested : List String) :
    (syncAgentTools mkId st current requested).2 =
      (detachIdsOf current requested).map ToolCallOp.detachTool ++
      (if requested.isEmpty then [] else
        (addedNamesOf current requested).flatMap
          (fun n => [ToolCallOp.upsertTool ("proxy_" ++ n),
                     ToolCallOp.attachTool ("proxy_" ++ n) (mkId ("proxy_" ++ n))])) := by
  unfold syncAgentTools detachIdsOf toRemoveOf addedNamesOf toAddNamesOf requestedLettaNamesOf
  cases hreq : requested.isEmpty with
  | true => simp [hreq, detachLoop_ops]
  | false => simp [hreq, detachLoop_ops, addLoop_ops]

theorem sync_after (mkId : String → String) (st : BridgeState) (current : List Tool)
    (requested : List String) :
    applyOps current (syncAgentTools mkId st current requested).2 =
      current.filter (fun t => !((detachIdsOf current requested).contains t.id)) ++
      (if requested.isEmpty then [] else newToolsOf mkId current requested) := by
  rw [syncAgentTools_ops, applyOps_append, applyOps_detachList]
  cases hreq : requested.isEmpty with
  | true => simp [applyOps]
  | false =>
    simp only [Bool.false_eq_true, if_false]
    unfold newToolsOf
    exact applyOps_upsertAttach (addedNamesOf current requested)
      (fun n => "proxy_" ++ n) (fun n => mkId ("proxy_" ++ n)) _

theorem contains_iff {α : Type} [BEq α] [LawfulBEq α] (l : List α) (a : α) :
    l.contains a = true ↔ a ∈ l := List.elem_iff

theorem contains_false_iff {α : Type} [BEq α] [LawfulBEq α] (l : List α) (a : α) :
    l.contains a = false ↔ a ∉ l := by
  cases h : l.contains a with
  | true => simpa using (contains_iff l a).mp h
  | false =>
    simp only [true_iff]
    intro hmem
    rw [(contains_iff l a).mpr hmem] at h
    cases h

theorem mem_toRemoveOf (current : List Tool) (requested : List String) (n : String) :
    n ∈ toRemoveOf current requested ↔
      n ∈ current.map Tool.name ∧ isProxyOwned n = true ∧
        n ∉ requestedLettaNamesOf requested := by
  unfold toRemoveOf
  rw [List.mem_filter, mem_dedupKeepFirst]
  constructor
  · rintro ⟨h1, h2⟩
    rw [Bool.and_eq_true, Bool.not_eq_true'] at h2
    exact ⟨h1, h2.1, (contains_false_iff _ _).mp h2.2⟩
  · rintro ⟨h1, h2, h3⟩
    refine ⟨h1, ?_⟩
    rw [Bool.and_eq_true, Bool.not_eq_true']
    exact ⟨h2, (contains_false_iff _ _).mpr h3⟩

theorem mem_detachIds_iff (current : List Tool) (requested : List String) (t : Tool)
    (ht : t ∈ current)
    (hnames : (current.map Tool.name).Nodup) (hids : (current.map Tool.id).Nodup) :
    t.id ∈ detachIdsOf current requested ↔
      t.name ∈ toRemoveOf current requested ∧ t.id ≠ "" := by
  unfold detachIdsOf
  constructor
  · intro h
    obtain ⟨n, hn, hfind⟩ := List.mem_filterMap.mp h
    cases hf : findToolIdByName current n with
    | none => rw [hf] at hfind; cases hfind
    | some tid =>
      rw [hf] at hfind
      cases hne : (tid != "") with
      | false => simp [Option.filter, hne] at hfind
      | true =>
        have htid : tid = t.id := by simpa [Option.filter, hne] using hfind
        subst htid
        obtain ⟨u, hu, huname, huid⟩ := findToolIdByName_mem current n t.id hf
        have hut : u = t := List.inj_on_of_nodup_map hids hu ht huid
        subst hut
        refine ⟨?_, bne_iff_ne.mp hne⟩
        rwa [← huname] at hn
  · rintro ⟨h, hne⟩
    have hmemname : t.name ∈ current.map Tool.name := List.mem_map.mpr ⟨t, ht, rfl⟩
    obtain ⟨tid, hfind⟩ := findToolIdByName_isSome_of_mem current t.name hmemname
    obtain ⟨u, hu, huname, huid⟩ := findToolIdByName_mem current t.name tid hfind
    have hut : u = t := List.inj_on_of_nodup_map hnames hu ht huname
    rw [hut] at huid
    refine List.mem_filterMap.mpr ⟨t.name, h, ?_⟩
    rw [hfind, ← huid]
    simp [Option.filter, bne_iff_ne, hne]

theorem sync_names_superset (mkId : String → String) (st : BridgeState) (current : List Tool)
    (requested : List String)
    (hnames : (current.map Tool.name).Nodup) (hids : (current.map Tool.id).Nodup)
    (n : String) (hn : n ∈ requestedLettaNamesOf requested) :
    n ∈ (applyOps current (syncAgentTools mkId st current requested).2).map Tool.name := by
  rw [sync_after]
  rw [List.map_append, List.mem_append]
  by_cases hcur : n ∈ current.map Tool.name
  · left
    obtain ⟨t, ht, rfl⟩ := List.mem_map.mp hcur
    refine List.mem_map.mpr ⟨t, List.mem_filter.mpr ⟨ht, ?_⟩, rfl⟩
    rw [Bool.not_eq_eq_eq_not, Bool.not_true, contains_false_iff]
    intro hmemid
    have hrem := ((mem_detachIds_iff current requested t ht hnames hids).mp hmemid).1
    exact ((mem_toRemoveOf current requested t.name).mp hrem).2.2 hn
  · right
    obtain ⟨m, hm, rfl⟩ := List.mem_map.mp hn
    have hreq : requested.isEmpty = false := by
      cases requested with
      | nil => cases hm
      | cons a l => rfl
    rw [hreq]
    simp only [Bool.false_eq_true, if_false]
    refine List.mem_map.mpr ⟨⟨"proxy_" ++ m, mkId ("proxy_" ++ m)⟩, ?_, rfl⟩
    unfold newToolsOf
    refine List.mem_map.mpr ⟨m, ?_, rfl⟩
    unfold addedNamesOf
    refine List.mem_filter.mpr ⟨hm, ?_⟩
    rw [contains_iff]
    unfold toAddNamesOf
    refine List.mem_filter.mpr ⟨(mem_dedupKeepFirst _ _).mpr hn, ?_⟩
    rw [Bool.not_eq_eq_eq_not, Bool.not_true, contains_false_iff]
    exact hcur

theorem sync_names_iff (mkId : String → String) (st : BridgeState) (current : List Tool)
    (requested : List String)
    (hnames : (current.map Tool.name).Nodup) (hids : (current.map Tool.id).Nodup)
    (hid0 : ∀ t ∈ current, t.id ≠ "")
    (n : String) :
    (isProxyOwned n = true ∧
      n ∈ (applyOps current (syncAgentTools mkId st current requested).2).map Tool.name) ↔
    n ∈ requestedLettaNamesOf requested := by
  constructor
  · rintro ⟨hproxy, hmem⟩
    rw [sync_after, List.map_append, List.mem_append] at hmem
    rcases hmem with h | h
    · obtain ⟨t, htf, rfl⟩ := List.mem_map.mp h
      obtain ⟨htc, hpred⟩ := List.mem_filter.mp htf
      rw [Bool.not_eq_eq_eq_not, Bool.not_true] at hpred
      by_contra hnr
      have hrem : t.name ∈ toRemoveOf current requested :=
        (mem_toRemoveOf current requested t.name).mpr
          ⟨List.mem_map.mpr ⟨t, htc, rfl⟩, hproxy, hnr⟩
      have hdet : t.id ∈ detachIdsOf current requested :=
        (mem_detachIds_iff current requested t htc hnames hids).mpr ⟨hrem, hid0 t htc⟩
      exact (contains_false_iff _ _).mp hpred hdet
    · cases hreq : requested.isEmpty with
      | true =>
        rw [hreq] at h
        simp at h
      | false =>
        rw [hreq] at h
        simp only [Bool.false_eq_true, if_false] at h
        obtain ⟨t, htn, rfl⟩ := List.mem_map.mp h
        obtain ⟨m, hm, rfl⟩ := List.mem_map.mp htn
        exact List.mem_map.mpr ⟨m, (List.mem_filter.mp hm).1, rfl⟩
  · intro hn
    have hproxy : isProxyOwned n = true := by
      obtain ⟨m, _, rfl⟩ := List.mem_map.mp hn
      exact isProxyOwned_concat m
    exact ⟨hproxy, sync_names_superset mkId st current requested hnames hids n hn⟩

theorem sync_preserves_unprefixed (mkId : String → String) (st : BridgeState)
    (current : List Tool) (requested : List String)
    (hnames : (current.map Tool.name).Nodup) (hids : (current.map Tool.id).Nodup)
    (t : Tool) (ht : t ∈ current) (hnp : isProxyOwned t.name = false) :
    t ∈ applyOps current (syncAgentTools mkId st current requested).2 := by
  rw [sync_after]
  apply List.mem_append_left
  refine List.mem_filter.mpr ⟨ht, ?_⟩
  rw [Bool.not_eq_eq_eq_not, Bool.not_true, contains_false_iff]
  intro hmemid
  have hrem := ((mem_detachIds_iff current requested t ht hnames hids).mp hmemid).1
  have := ((mem_toRemoveOf current requested t.name).mp hrem).2.1
  rw [hnp] at this
  cases this

/-- C2 counterexample: the fetched list holds a single attached proxy tool
`proxy_B` whose backend id is the empty string (so names and ids are
pairwise distinct), and the request asks for tool `A` only.  The detach
loop's `if tool_id:` guard treats the resolved empty-string id as falsy and
skips the detach, so the unrequested `proxy_B` is still attached after the
sync even though it is proxy-owned and absent from the requested prefixed
name set — refuting the claimed exact-set equality. -/
theorem tool_sync_exact_set_counterexample :
    ((falsyIdTools.map Tool.name).Nodup ∧ (falsyIdTools.map Tool.id).Nodup) ∧
    (isProxyOwned "proxy_B" = true ∧
      "proxy_B" ∈ (applyOps falsyIdTools
        (syncAgentTools demoMkId {} falsyIdTools ["A"]).2).map Tool.name) ∧
    "proxy_B" ∉ ["A"].map (fun m => "proxy_" ++ m) := by decide

/-- C2 (amended): provided every fetched tool carries a non-empty
(Python-truthy) backend id, after a tool-registry sync (i) the attached tools
carrying the reserved `proxy_` prefix are, as a set of names, exactly the
prefixed forms of the requested tool names; (ii) every detach call issued
targets a currently-attached tool whose name carries the prefix and every
upsert/attach issued is for a prefixed proxy tool (so no attach or detach is
ever issued for a tool without the prefix); (iii) every attached tool without
the prefix is still attached afterwards.  The agent's fetched tool list is
assumed to carry pairwise-distinct names and ids (a backend well-formedness
condition); without the non-empty-id proviso the `if tool_id:` guard of the
detach loop can leave an unrequested falsy-id proxy tool attached. -/
theorem tool_sync_exact_set_and_builtins (mkId : String → String) (st : BridgeState)
    (current : List Tool) (requested : List String)
    (hnames : (current.map Tool.name).Nodup) (hids : (current.map Tool.id).Nodup)
    (hid0 : ∀ t ∈ current, t.id ≠ "") :
    (∀ n, (isProxyOwned n = true ∧
        n ∈ (applyOps current (syncAgentTools mkId st current requested).2).map Tool.name) ↔
      n ∈ requested.map (fun m => "proxy_" ++ m)) ∧
    (∀ op ∈ (syncAgentTools mkId st current requested).2,
      (∀ tid, op = ToolCallOp.detachTool tid →
        ∃ t ∈ current, t.id = tid ∧ isProxyOwned t.name = true) ∧
      (∀ nm tid, op = ToolCallOp.attachTool nm tid → isProxyOwned nm = true) ∧
      (∀ nm, op = ToolCallOp.upsertTool nm → isProxyOwned nm = true)) ∧
    (∀ t ∈ current, isProxyOwned t.name = false →
      t ∈ applyOps current (syncAgentTools mkId st current requested).2) := by
  refine ⟨fun n => sync_names_iff mkId st current requested hnames hids hid0 n, ?_,
    fun t ht hnp => sync_preserves_unprefixed mkId st current requested hnames hids t ht hnp⟩
  intro op hop
  rw [syncAgentTools_ops, List.mem_append] at hop
  have hshape :
      (∃ t, t ∈ current ∧ op = ToolCallOp.detachTool t.id ∧ isProxyOwned t.name = true) ∨
      (∃ m, op = ToolCallOp.upsertTool ("proxy_" ++ m)) ∨
      (∃ m tid2, op = ToolCallOp.attachTool ("proxy_" ++ m) tid2) := by
    rcases hop with h | h
    · obtain ⟨tid, htid, rfl⟩ := List.mem_map.mp h
      obtain ⟨n2, hn2, hfind0⟩ := List.mem_filterMap.mp htid
      have hfind : findToolIdByName current n2 = some tid := by
        cases hf : findToolIdByName current n2 with
        | none => rw [hf] at hfind0; cases hfind0
        | some tid2 =>
          rw [hf] at hfind0
          cases hne : (tid2 != "") with
          | false => simp [Option.filter, hne] at hfind0
          | true =>
            have h2 : tid2 = tid := by simpa [Option.filter, hne] using hfind0
            rw [h2]
      obtain ⟨u, hu, huname, huid⟩ := findToolIdByName_mem current n2 tid hfind
      left
      refine ⟨u, hu, by rw [huid], ?_⟩
      rw [huname]
      exact ((mem_toRemoveOf current requested n2).mp hn2).2.1
    · cases hreq : requested.isEmpty with
      | true =>
        rw [hreq] at h
        cases h
      | false =>
        rw [hreq] at h
        simp only [Bool.false_eq_true, if_false] at h
        obtain ⟨m, _, hops⟩ := List.mem_flatMap.mp h
        rcases List.mem_cons.mp hops with heq | hops2
        · exact .inr (.inl ⟨m, heq⟩)
        · rcases List.mem_cons.mp hops2 with heq | hops3
          · exact .inr (.inr ⟨m, _, heq⟩)
          · cases hops3
  refine ⟨?_, ?_, ?_⟩
  · intro tid2 heq
    rcases hshape with ⟨t, ht, hopeq, hproxy⟩ | ⟨m, hopeq⟩ | ⟨m, tid3, hopeq⟩ <;>
      rw [heq] at hopeq
    · injection hopeq with h2
      subst h2
      exact ⟨t, ht, rfl, hproxy⟩
    · cases hopeq
    · cases hopeq
  · intro nm tid2 heq
    rcases hshape with ⟨t, ht, hopeq, hproxy⟩ | ⟨m, hopeq⟩ | ⟨m, tid3, hopeq⟩ <;>
      rw [heq] at hopeq
    · cases hopeq
    · cases hopeq
    · injection hopeq with h2 h3
      subst h2
      exact isProxyOwned_concat m
  · intro nm heq
    rcases hshape with ⟨t, ht, hopeq, hproxy⟩ | ⟨m, hopeq⟩ | ⟨m, tid3, hopeq⟩ <;>
      rw [heq] at hopeq
    · cases hopeq
    · injection hopeq with h2
      subst h2
      exact isProxyOwned_concat m
    · cases hopeq

/-- Witness for C2: attached `{proxy_A, proxy_B, builtin_X}` with non-empty
ids, requested `{A}`; after sync the attachment set is `{proxy_A, builtin_X}`
and the only backend call is the detach of `proxy_B`. -/
theorem tool_sync_exact_set_and_builtins_witness :
    ((demoCurrentTools.map Tool.name).Nodup ∧ (demoCurrentTools.map Tool.id).Nodup ∧
      (∀ t ∈ demoCurrentTools, t.id ≠ "")) ∧
    ((∀ n, (isProxyOwned n = true ∧
        n ∈ (applyOps demoCurrentTools
          (syncAgentTools demoMkId {} demoCurrentTools ["A"]).2).map Tool.name) ↔
      n ∈ (["A"].map (fun m => "proxy_" ++ m))) ∧
    (∀ op ∈ (syncAgentTools demoMkId {} demoCurrentTools ["A"]).2,
      (∀ tid, op = ToolCallOp.detachTool tid →
        ∃ t ∈ demoCurrentTools, t.id = tid ∧ isProxyOwned t.name = true) ∧
      (∀ nm tid, op = ToolCallOp.attachTool nm tid → isProxyOwned nm = true) ∧
      (∀ nm, op = ToolCallOp.upsertTool nm → isProxyOwned nm = true)) ∧
    (∀ t ∈ demoCurrentTools, isProxyOwned t.name = false →
      t ∈ applyOps demoCurrentTools
        (syncAgentTools demoMkId {} demoCurrentTools ["A"]).2)) ∧
    applyOps demoCurrentTools (syncAgentTools demoMkId {} demoCurrentTools ["A"]).2 =
      [{ name := "proxy_A", id := "t1" }, { name := "builtin_X", id := "t3" }] ∧
    (syncAgentTools demoMkId {} demoCurrentTools ["A"]).2 = [ToolCallOp.detachTool "t2"] :=
  ⟨⟨by decide, by decide, by decide⟩,
   tool_sync_exact_set_and_builtins demoMkId {} demoCurrentTools ["A"]
     (by decide) (by decide) (by decide),
   by decide, by decide⟩

/-- C7: running `sync` twice with an identical requested set, the second
invocation issues no backend calls at all beyond the initial fetch of the
agent's tool list — no detach, no tool upsert, no attach. -/
theorem tool_sync_idempotent (mkId : String → String) (st st2 : BridgeState)
    (current : List Tool) (requested : List String)
    (hnames : (current.map Tool.name).Nodup) (hids : (current.map Tool.id).Nodup) :
    (syncAgentTools mkId st2
      (applyOps current (syncAgentTools mkId st current requested).2) requested).2 = [] := by
  rw [syncAgentTools_ops]
  have hA := sync_after mkId st current requested
  have hres : ∀ n, n ∈ toRemoveOf
      (applyOps current (syncAgentTools mkId st current requested).2) requested →
      (findToolIdByName
        (applyOps current (syncAgentTools mkId st current requested).2) n).filter
          (fun tid => tid != "") = none := by
    intro n hn
    obtain ⟨hmemA, hproxy, hnreq⟩ := (mem_toRemoveOf _ requested n).mp hn
    rw [hA]
    have htail : findToolIdByName
        (if requested.isEmpty then [] else newToolsOf mkId current requested) n = none := by
      unfold findToolIdByName
      have hnone : List.find? (fun t => t.name == n)
          (if requested.isEmpty then [] else newToolsOf mkId current requested) = none := by
        rw [List.find?_eq_none]
        intro u hu
        cases hreq : requested.isEmpty with
        | true => rw [hreq] at hu; cases hu
        | false =>
          rw [hreq] at hu
          simp only [Bool.false_eq_true, if_false] at hu
          obtain ⟨m, hm, rfl⟩ := List.mem_map.mp hu
          intro hbeq
          apply hnreq
          have hn2 : n = "proxy_" ++ m := (eq_of_beq hbeq).symm
          rw [hn2]
          exact List.mem_map.mpr ⟨m, (List.mem_filter.mp hm).1, rfl⟩
      rw [hnone]
      rfl
    cases hf : findToolIdByName
        (current.filter (fun t => !((detachIdsOf current requested).contains t.id))) n with
    | none =>
      rw [findToolIdByName_append_right _ _ n hf, htail]
      rfl
    | some tid =>
      rw [findToolIdByName_append_left _ _ n tid hf]
      obtain ⟨u, hu, huname, huid⟩ := findToolIdByName_mem _ n tid hf
      obtain ⟨huc, hupred⟩ := List.mem_filter.mp hu
      have htid0 : tid = "" := by
        by_contra hne
        rw [Bool.not_eq_eq_eq_not, Bool.not_true] at hupred
        have hrem : u.name ∈ toRemoveOf current requested :=
          (mem_toRemoveOf current requested u.name).mpr
            ⟨List.mem_map.mpr ⟨u, huc, rfl⟩, by rw [huname]; exact hproxy,
             by rw [huname]; exact hnreq⟩
        have hmemid : u.id ∈ detachIdsOf current requested :=
          (mem_detachIds_iff current requested u huc hnames hids).mpr
            ⟨hrem, by rw [huid]; exact hne⟩
        exact (contains_false_iff _ _).mp hupred hmemid
      rw [htid0]
      rfl
  have hdet : detachIdsOf
      (applyOps current (syncAgentTools mkId st current requested).2) requested = [] := by
    unfold detachIdsOf
    rw [List.filterMap_eq_nil_iff]
    exact hres
  have haddnames : addedNamesOf
      (applyOps current (syncAgentTools mkId st current requested).2) requested = [] := by
    have hadd : toAddNamesOf
        (applyOps current (syncAgentTools mkId st current requested).2) requested = [] := by
      unfold toAddNamesOf
      rw [List.filter_eq_nil_iff]
      intro n hn
      rw [mem_dedupKeepFirst] at hn
      have hmem := sync_names_superset mkId st current requested hnames hids n hn
      rw [Bool.not_eq_eq_eq_not, Bool.not_true, contains_false_iff]
      intro hcontra
      exact hcontra hmem
    unfold addedNamesOf
    rw [hadd, List.filter_eq_nil_iff]
    intro n _
    simp
  rw [hdet, haddnames]
  cases hreq : requested.isEmpty with
  | true => simp
  | false => simp [hreq]

/-- Witness for C7: the second sync over `{proxy_A, builtin_X}` with requested
`{A}` issues no calls. -/
theorem tool_sync_idempotent_witness :
    ((demoCurrentTools.map Tool.name).Nodup ∧ (demoCurrentTools.map Tool.id).Nodup) ∧
    (syncAgentTools demoMkId {}
      (applyOps demoCurrentTools
        (syncAgentTools demoMkId {} demoCurrentTools ["A"]).2) ["A"]).2 = [] :=
  ⟨⟨by decide, by decide⟩,
   tool_sync_idempotent demoMkId {} {} demoCurrentTools ["A"] (by decide) (by decide)⟩

/-! ## Overlay application (C1, C3, C5) -/

theorem OverlayStore.get_of_find_none (store : OverlayStore) (s : String) (t : Nat)
    (h : store.entries.find? (fun e => e.1 == s) = none) :
    store.get s t = (none, store) := by
  unfold OverlayStore.get
  rw [h]

theorem OverlayStore.get_maxSessions (store : OverlayStore) (s : String) (t : Nat) :
    (store.get s t).2.maxSessions = store.maxSessions := by
  unfold OverlayStore.get
  split
  · rfl
  · split <;> rfl

theorem OverlayStore.get_ttlSeconds (store : OverlayStore) (s : String) (t : Nat) :
    (store.get s t).2.ttlSeconds = store.ttlSeconds := by
  unfold OverlayStore.get
  split
  · rfl
  · split <;> rfl

theorem OverlayStore.get_set_same (store : OverlayStore) (s : String)
    (st : SessionOverlayState) (t t2 : Nat)
    (hcap : 1 ≤ store.maxSessions) (httl : t2 - t ≤ store.ttlSeconds) :
    ((store.set s st t).get s t2).1 = some { st with last_updated := t } := by
  have hfind : ((store.set s st t).entries).find? (fun e => e.1 == s) =
      some (s, { st with last_updated := t }) := by
    rw [OverlayStore.set_entries]
    have hk : ((store.entries.filter (fun e => e.1 != s)) ++
        ([(s, { st with last_updated := t })] :
          List (String × SessionOverlayState))).length - store.maxSessions ≤
        (store.entries.filter (fun e => e.1 != s)).length := by
      rw [List.length_append, List.length_singleton]
      omega
    unfold dropTo
    rw [List.drop_append_of_le_length hk, find?_append_none]
    · rw [List.find?_cons_of_pos _ (by simp)]
    · intro x hx
      have hxl := List.mem_of_mem_drop hx
      have hflt := List.mem_filter.mp hxl
      have : (x.1 != s) = true := hflt.2
      rw [bne_iff_ne] at this
      simp [this]
  unfold OverlayStore.get
  rw [hfind]
  dsimp only
  have hcond : ¬ (t2 - ({ st with last_updated := t } : SessionOverlayState).last_updated >
      (store.set s st t).ttlSeconds) := by
    have h1 : (store.set s st t).ttlSeconds = store.ttlSeconds := rfl
    rw [h1]
    dsimp only
    omega
  rw [if_neg hcond]

/-- Evaluation of `apply_overlay` when the early idempotent-skip check fails
(either the recorded hash differs or no valid block handle is recorded): the
call runs backend reconciliation, and the result follows the try/except
structure of the code. -/
theorem applyOverlay_reconcile (b : Backend) (store : OverlayStore) (s c : String) (t : Nat)
    (st0 : SessionOverlayState)
    (hstate : ((store.get s t).1).getD {} = st0)
    (hc : (c == "") = false)
    (hnoskip : (st0.overlay_hash == some (hashContent (cleanSystemContent c)) &&
      blockIdValid st0.block_id) = false) :
    applyOverlay b store s (some c) t =
      (match reconcileOverlayBlock b st0 (cleanSystemContent c) with
       | (.ok newBid, calls) =>
         { changed := true, fallbackMessages := [],
           store := (store.get s t).2.set s
             { st0 with block_id := newBid,
                        overlay_hash := some (hashContent (cleanSystemContent c)),
                        fallback_applied := false } t,
           calls := calls }
       | (.error _, calls) =>
         { changed := false,
           fallbackMessages := if st0.fallback_applied then [] else
             [{ role := "user",
                text := "[Proxy System Overlay]: " ++ cleanSystemContent c }],
           store := (store.get s t).2.set s
             { st0 with fallback_applied := true,
                        overlay_hash := some (hashContent (cleanSystemContent c)) } t,
           calls := calls }) := by
  simp only [applyOverlay, Option.getD_some, hstate, contentFalsy, hc, Bool.false_eq_true,
    if_false, hnoskip]

/-- Evaluation of `apply_overlay` when the cached state carries the content's
hash and a valid block handle: the idempotent skip, issuing no backend call. -/
theorem applyOverlay_cached (b : Backend) (store : OverlayStore) (s c : String) (t : Nat)
    (st0 : SessionOverlayState)
    (hstate : ((store.get s t).1).getD {} = st0)
    (hc : (c == "") = false)
    (hhash : st0.overlay_hash = some (hashContent (cleanSystemContent c)))
    (hbid : blockIdValid st0.block_id = true) :
    applyOverlay b store s (some c) t =
      { changed := false, fallbackMessages := [],
        store := (store.get s t).2.set s st0 t, calls := [] } := by
  simp only [applyOverlay, Option.getD_some, hstate, contentFalsy, hc, Bool.false_eq_true,
    if_false, hhash, hbid, beq_self_eq_true, Bool.true_and, if_true]

theorem applyOverlay_ok (b : Backend) (store : OverlayStore) (s c : String) (t : Nat)
    (st0 : SessionOverlayState) (newBid : Option String) (calls : List BCall)
    (st1 : SessionOverlayState)
    (hstate : ((store.get s t).1).getD {} = st0)
    (hc : (c == "") = false)
    (hnoskip : (st0.overlay_hash == some (hashContent (cleanSystemContent c)) &&
      blockIdValid st0.block_id) = false)
    (hrec : reconcileOverlayBlock b st0 (cleanSystemContent c) = (Except.ok newBid, calls))
    (hst1 : st1 =
      { st0 with
          block_id := newBid,
          overlay_hash := some (hashContent (cleanSystemContent c)),
          fallback_applied := false }) :
    applyOverlay b store s (some c) t =
      { changed := true, fallbackMessages := [],
        store := (store.get s t).2.set s st1 t,
        calls := calls } := by
  subst hst1
  rw [applyOverlay_reconcile b store s c t st0 hstate hc hnoskip, hrec]

theorem applyOverlay_err (b : Backend) (store : OverlayStore) (s c : String) (t : Nat)
    (st0 : SessionOverlayState) (calls : List BCall) (st1 : SessionOverlayState)
    (hstate : ((store.get s t).1).getD {} = st0)
    (hc : (c == "") = false)
    (hnoskip : (st0.overlay_hash == some (hashContent (cleanSystemContent c)) &&
      blockIdValid st0.block_id) = false)
    (hrec : reconcileOverlayBlock b st0 (cleanSystemContent c) = (Except.error (), calls))
    (hst1 : st1 =
      { st0 with
          fallback_applied := true,
          overlay_hash := some (hashContent (cleanSystemContent c)) }) :
    applyOverlay b store s (some c) t =
      { changed := false,
        fallbackMessages := if st0.fallback_applied then [] else
          [{ role := "user",
             text := "[Proxy System Overlay]: " ++ cleanSystemContent c }],
        store := (store.get s t).2.set s st1 t,
        calls := calls } := by
  subst hst1
  rw [applyOverlay_reconcile b store s c t st0 hstate hc hnoskip, hrec]

theorem reconcile_fresh_ok (b : Backend) (st0 : SessionOverlayState) (clean : String)
    (bs : List Block) (cid : String)
    (hb : blockIdValid st0.block_id = false)
    (hmod : ∀ bid, b.modifyResult bid = Except.ok ())
    (hlist : b.listBlocksResult = Except.ok bs)
    (hbs : ∀ bl ∈ bs, bl.id ≠ "")
    (hcreate : b.createResult = Except.ok cid)
    (hcid : cid ≠ "")
    (hattach : ∀ bid, b.attachResult bid = Except.ok ()) :
    ∃ bid calls, bid ≠ "" ∧
      reconcileOverlayBlock b st0 clean = (Except.ok (some bid), calls) ∧
      calls.countP isCreateOrUpdate = 1 := by
  unfold reconcileOverlayBlock
  rw [hb]
  simp only [Bool.false_eq_true, if_false, hlist]
  cases hf : bs.find? (fun bl => bl.label == OVERLAY_LABEL) with
  | some ob =>
    refine ⟨ob.id, [.listBlocks, .modifyBlock ob.id clean],
      hbs ob (List.mem_of_find?_eq_some hf), ?_, by simp [List.countP_cons, isCreateOrUpdate]⟩
    simp [hmod]
  | none =>
    have hcb : (cid == "") = false := by simp [hcid]
    refine ⟨cid, [.listBlocks, .createBlock clean, .attachBlock cid], hcid, ?_,
      by simp [List.countP_cons, isCreateOrUpdate]⟩
    simp [hcreate, hcb, hattach]

theorem reconcile_fails (b : Backend) (st0 : SessionOverlayState) (clean : String)
    (hmod : ∀ bid, b.modifyResult bid = Except.error ())
    (hcreate : b.createResult = Except.error ()) :
    ∃ calls, reconcileOverlayBlock b st0 clean = (Except.error (), calls) := by
  unfold reconcileOverlayBlock
  cases hb : blockIdValid st0.block_id with
  | true =>
    refine ⟨[.modifyBlock (st0.block_id.getD "") clean], ?_⟩
    simp [hb, hmod]
  | false =>
    simp only [hb, Bool.false_eq_true, if_false]
    cases hl : b.listBlocksResult with
    | error e =>
      cases e
      exact ⟨[.listBlocks], rfl⟩
    | ok bs =>
      cases hf : bs.find? (fun bl => bl.label == OVERLAY_LABEL) with
      | some ob =>
        refine ⟨[.listBlocks, .modifyBlock ob.id clean], ?_⟩
        simp [hf, hmod]
      | none =>
        refine ⟨[.listBlocks, .createBlock clean], ?_⟩
        simp [hf, hcreate]

theorem reconcile_update_fails (b : Backend) (st0 : SessionOverlayState) (clean bid : String)
    (hbid : st0.block_id = some bid) (hbne : bid ≠ "")
    (hmod : b.modifyResult bid = Except.error ()) :
    reconcileOverlayBlock b st0 clean = (Except.error (), [.modifyBlock bid clean]) := by
  unfold reconcileOverlayBlock
  have hv : blockIdValid st0.block_id = true := by
    rw [hbid]
    simp [blockIdValid, hbne]
  simp [hv, hbid, hmod, blockIdValid, hbne]

/-- C1: with a succeeding backend, a fresh session and non-empty content,
two consecutive `apply_overlay` calls with the same content issue exactly one
block create/update call in total: the second call observes the recorded
content hash and a non-empty block id, issues no backend call at all, and
returns `(changed := false, [])`. -/
theorem apply_overlay_idempotent (b : Backend) (store : OverlayStore) (s c : String)
    (t1 t2 : Nat) (bs : List Block) (cid : String)
    (hmod : ∀ bid, b.modifyResult bid = Except.ok ())
    (hlist : b.listBlocksResult = Except.ok bs)
    (hbs : ∀ bl ∈ bs, bl.id ≠ "")
    (hcreate : b.createResult = Except.ok cid)
    (hcid : cid ≠ "")
    (hattach : ∀ bid, b.attachResult bid = Except.ok ())
    (hc : c ≠ "")
    (hfresh : store.entries.find? (fun e => e.1 == s) = none)
    (hcap : 1 ≤ store.maxSessions)
    (httl : t2 - t1 ≤ store.ttlSeconds) :
    ((applyOverlay b store s (some c) t1).calls ++
      (applyOverlay b (applyOverlay b store s (some c) t1).store s (some c) t2).calls).countP
        isCreateOrUpdate = 1 ∧
    (applyOverlay b (applyOverlay b store s (some c) t1).store s (some c) t2).calls = [] ∧
    (applyOverlay b (applyOverlay b store s (some c) t1).store s (some c) t2).changed = false ∧
    (applyOverlay b (applyOverlay b store s (some c) t1).store s (some c) t2).fallbackMessages
      = [] ∧
    (applyOverlay b store s (some c) t1).changed = true ∧
    ∃ stObs, ((applyOverlay b store s (some c) t1).store.get s t2).1 = some stObs ∧
      stObs.overlay_hash = some (hashContent (cleanSystemContent c)) ∧
      blockIdValid stObs.block_id = true := by
  have hcb : (c == "") = false := by simp [hc]
  have hg1 : store.get s t1 = (none, store) := OverlayStore.get_of_find_none store s t1 hfresh
  have hst0 : ((store.get s t1).1).getD {} = ({} : SessionOverlayState) := by
    rw [hg1]
    rfl
  have hnoskip : ((({} : SessionOverlayState).overlay_hash ==
      some (hashContent (cleanSystemContent c))) &&
      blockIdValid ({} : SessionOverlayState).block_id) = false := rfl
  obtain ⟨X, L, hXne, hrec1, hcnt⟩ :=
    reconcile_fresh_ok b {} (cleanSystemContent c) bs cid rfl hmod hlist hbs hcreate hcid hattach
  have h1 := applyOverlay_ok b store s c t1 {} (some X) L
    ⟨some (hashContent (cleanSystemContent c)), some X, false, 0⟩
    hst0 hcb hnoskip hrec1 rfl
  have hstore1 : (applyOverlay b store s (some c) t1).store =
      store.set s ⟨some (hashContent (cleanSystemContent c)), some X, false, 0⟩ t1 := by
    rw [h1, hg1]
  have hobs : ((applyOverlay b store s (some c) t1).store.get s t2).1 =
      some ⟨some (hashContent (cleanSystemContent c)), some X, false, t1⟩ := by
    rw [hstore1]
    exact OverlayStore.get_set_same store s _ t1 t2 hcap httl
  have hbidv : blockIdValid (some X) = true := by simp [blockIdValid, hXne]
  have hst2 : (((applyOverlay b store s (some c) t1).store.get s t2).1).getD {} =
      ⟨some (hashContent (cleanSystemContent c)), some X, false, t1⟩ := by
    rw [hobs]
    rfl
  have h2 := applyOverlay_cached b (applyOverlay b store s (some c) t1).store s c t2
    ⟨some (hashContent (cleanSystemContent c)), some X, false, t1⟩ hst2 hcb rfl hbidv
  refine ⟨?_, by rw [h2], by rw [h2], by rw [h2], by rw [h1], ?_⟩
  · rw [h2, h1]
    simpa using hcnt
  · exact ⟨_, hobs, rfl, hbidv⟩

/-- Witness for C1 at a concrete instance: succeeding backend, fresh store,
content "You are helpful.". -/
theorem apply_overlay_idempotent_witness :
    ((∀ bid, succeedingBackend.modifyResult bid = Except.ok ()) ∧
     succeedingBackend.listBlocksResult = Except.ok [] ∧
     (∀ bl ∈ ([] : List Block), bl.id ≠ "") ∧
     succeedingBackend.createResult = Except.ok "blk-1" ∧
     ("blk-1" : String) ≠ "" ∧
     (∀ bid, succeedingBackend.attachResult bid = Except.ok ()) ∧
     ("You are helpful." : String) ≠ "" ∧
     emptyStore.entries.find? (fun e => e.1 == "s1") = none ∧
     1 ≤ emptyStore.maxSessions ∧ (0 : Nat) - 0 ≤ emptyStore.ttlSeconds) ∧
    (((applyOverlay succeedingBackend emptyStore "s1" (some "You are helpful.") 0).calls ++
      (applyOverlay succeedingBackend
        (applyOverlay succeedingBackend emptyStore "s1" (some "You are helpful.") 0).store
        "s1" (some "You are helpful.") 0).calls).countP isCreateOrUpdate = 1 ∧
    (applyOverlay succeedingBackend
        (applyOverlay succeedingBackend emptyStore "s1" (some "You are helpful.") 0).store
        "s1" (some "You are helpful.") 0).calls = [] ∧
    (applyOverlay succeedingBackend
        (applyOverlay succeedingBackend emptyStore "s1" (some "You are helpful.") 0).store
        "s1" (some "You are helpful.") 0).changed = false ∧
    (applyOverlay succeedingBackend
        (applyOverlay succeedingBackend emptyStore "s1" (some "You are helpful.") 0).store
        "s1" (some "You are helpful.") 0).fallbackMessages = [] ∧
    (applyOverlay succeedingBackend emptyStore "s1" (some "You are helpful.") 0).changed
      = true ∧
    ∃ stObs, ((applyOverlay succeedingBackend emptyStore "s1"
        (some "You are helpful.") 0).store.get "s1" 0).1 = some stObs ∧
      stObs.overlay_hash = some (hashContent (cleanSystemContent "You are helpful.")) ∧
      blockIdValid stObs.block_id = true) :=
  ⟨⟨fun _ => rfl, rfl, (by intro bl h; cases h), rfl, (by decide), fun _ => rfl,
    (by decide), rfl, (by decide), (by decide)⟩,
   apply_overlay_idempotent succeedingBackend emptyStore "s1" "You are helpful." 0 0 []
     "blk-1" (fun _ => rfl) rfl (by intro bl h; cases h) rfl (by decide) (fun _ => rfl)
     (by decide) rfl (by decide) (by decide)⟩

/-- C3: with a backend whose mutation calls always fail and a fresh session,
two consecutive `apply_overlay` calls with the same non-empty content return
fallback message lists of lengths 1 and 0: the first call injects exactly one
fallback message embedding the (normalized) content and records
`fallback_applied`, the second injects none; both calls return normally with
`changed := false`. -/
theorem apply_overlay_fallback_once (b : Backend) (store : OverlayStore) (s c : String)
    (t1 t2 : Nat)
    (hmod : ∀ bid, b.modifyResult bid = Except.error ())
    (hcreate : b.createResult = Except.error ())
    (hc : c ≠ "")
    (hfresh : store.entries.find? (fun e => e.1 == s) = none)
    (hcap : 1 ≤ store.maxSessions)
    (httl : t2 - t1 ≤ store.ttlSeconds) :
    (applyOverlay b store s (some c) t1).fallbackMessages =
      [{ role := "user", text := "[Proxy System Overlay]: " ++ cleanSystemContent c }] ∧
    (applyOverlay b store s (some c) t1).changed = false ∧
    (applyOverlay b (applyOverlay b store s (some c) t1).store s (some c) t2).fallbackMessages
      = [] ∧
    (applyOverlay b (applyOverlay b store s (some c) t1).store s (some c) t2).changed
      = false ∧
    ∃ stObs, ((applyOverlay b store s (some c) t1).store.get s t2).1 = some stObs ∧
      stObs.fallback_applied = true ∧
      stObs.overlay_hash = some (hashContent (cleanSystemContent c)) := by
  have hcb : (c == "") = false := by simp [hc]
  have hg1 : store.get s t1 = (none, store) := OverlayStore.get_of_find_none store s t1 hfresh
  have hst0 : ((store.get s t1).1).getD {} = ({} : SessionOverlayState) := by
    rw [hg1]
    rfl
  have hnoskip : ((({} : SessionOverlayState).overlay_hash ==
      some (hashContent (cleanSystemContent c))) &&
      blockIdValid ({} : SessionOverlayState).block_id) = false := rfl
  obtain ⟨L, hrec1⟩ := reconcile_fails b {} (cleanSystemContent c) hmod hcreate
  have h1 := applyOverlay_err b store s c t1 {} L
    ⟨some (hashContent (cleanSystemContent c)), none, true, 0⟩ hst0 hcb hnoskip hrec1 rfl
  have hstore1 : (applyOverlay b store s (some c) t1).store =
      store.set s ⟨some (hashContent (cleanSystemContent c)), none, true, 0⟩ t1 := by
    rw [h1, hg1]
  have hobs : ((applyOverlay b store s (some c) t1).store.get s t2).1 =
      some ⟨some (hashContent (cleanSystemContent c)), none, true, t1⟩ := by
    rw [hstore1]
    exact OverlayStore.get_set_same store s _ t1 t2 hcap httl
  have hst2 : (((applyOverlay b store s (some c) t1).store.get s t2).1).getD {} =
      ⟨some (hashContent (cleanSystemContent c)), none, true, t1⟩ := by
    rw [hobs]
    rfl
  have hnoskip2 :
      (((⟨some (hashContent (cleanSystemContent c)), none, true, t1⟩ :
          SessionOverlayState).overlay_hash ==
        some (hashContent (cleanSystemContent c))) &&
        blockIdValid (⟨some (hashContent (cleanSystemContent c)), none, true, t1⟩ :
          SessionOverlayState).block_id) = false := by
    simp [blockIdValid]
  obtain ⟨L2, hrec2⟩ := reconcile_fails b
    ⟨some (hashContent (cleanSystemContent c)), none, true, t1⟩
    (cleanSystemContent c) hmod hcreate
  have h2 := applyOverlay_err b (applyOverlay b store s (some c) t1).store s c t2
    ⟨some (hashContent (cleanSystemContent c)), none, true, t1⟩ L2
    ⟨some (hashContent (cleanSystemContent c)), none, true, t1⟩
    hst2 hcb hnoskip2 hrec2 rfl
  refine ⟨by simp [h1], by simp [h1], ?_, by simp [h2], ⟨_, hobs, rfl, rfl⟩⟩
  simp [h2]

/-- Witness for C3 at a concrete instance: failing backend, fresh store,
content "hello". -/
theorem apply_overlay_fallback_once_witness :
    ((∀ bid, failingBackend.modifyResult bid = Except.error ()) ∧
     failingBackend.createResult = Except.error () ∧
     ("hello" : String) ≠ "" ∧
     emptyStore.entries.find? (fun e => e.1 == "s1") = none ∧
     1 ≤ emptyStore.maxSessions ∧ (0 : Nat) - 0 ≤ emptyStore.ttlSeconds) ∧
    ((applyOverlay failingBackend emptyStore "s1" (some "hello") 0).fallbackMessages =
      [{ role := "user", text := "[Proxy System Overlay]: " ++ cleanSystemContent "hello" }] ∧
    (applyOverlay failingBackend emptyStore "s1" (some "hello") 0).changed = false ∧
    (applyOverlay failingBackend
      (applyOverlay failingBackend emptyStore "s1" (some "hello") 0).store
      "s1" (some "hello") 0).fallbackMessages = [] ∧
    (applyOverlay failingBackend
      (applyOverlay failingBackend emptyStore "s1" (some "hello") 0).store
      "s1" (some "hello") 0).changed = false ∧
    ∃ stObs, ((applyOverlay failingBackend emptyStore "s1"
        (some "hello") 0).store.get "s1" 0).1 = some stObs ∧
      stObs.fallback_applied = true ∧
      stObs.overlay_hash = some (hashContent (cleanSystemContent "hello"))) :=
  ⟨⟨fun _ => rfl, rfl, (by decide), rfl, (by decide), (by decide)⟩,
   apply_overlay_fallback_once failingBackend emptyStore "s1" "hello" 0 0
     (fun _ => rfl) rfl (by decide) rfl (by decide) (by decide)⟩

set_option maxRecDepth 40000 in
/-- C5 counterexample: with a backend that always fails and a fresh session,
the first `apply_overlay` call fails in reconciliation and records the
content's hash with `changed = false` — yet the second call with the same
content issues a further backend mutation (a create attempt), because the
early-skip check also requires a non-empty `block_id`, which the failed call
never obtained.  So retries against the already-known-to-fail content are not
prevented. -/
theorem retry_after_failed_create_counterexample :
    (applyOverlay failingBackend emptyStore "s1" (some "hi") 0).changed = false ∧
    (((applyOverlay failingBackend emptyStore "s1"
        (some "hi") 0).store.get "s1" 1).1.getD {}).overlay_hash =
      some (hashContent (cleanSystemContent "hi")) ∧
    ¬ ((applyOverlay failingBackend
        (applyOverlay failingBackend emptyStore "s1" (some "hi") 0).store
        "s1" (some "hi") 1).calls.countP isCreateOrUpdate = 0) := by
  decide

/-- C5 (amended): if the failing call had a valid block handle recorded (the
update path failed while `state.block_id` was already non-empty), then a
subsequent `apply_overlay` call with the same content issues no backend calls
at all: the recorded hash plus the retained handle satisfy the early skip.
(When no valid handle is recorded — e.g. the creation path failed — the code
deliberately retries, per the comment at `proxy_overlay.py` line 301.) -/
theorem no_retry_after_failed_update (b : Backend) (store : OverlayStore) (s c : String)
    (t1 t2 : Nat) (st0 : SessionOverlayState) (bid : String)
    (hst0 : ((store.get s t1).1).getD {} = st0)
    (hbid : st0.block_id = some bid) (hbne : bid ≠ "")
    (hmod : b.modifyResult bid = Except.error ())
    (hc : c ≠ "")
    (hnh : st0.overlay_hash ≠ some (hashContent (cleanSystemContent c)))
    (hcap : 1 ≤ store.maxSessions) (httl : t2 - t1 ≤ store.ttlSeconds) :
    (applyOverlay b store s (some c) t1).changed = false ∧
    (applyOverlay b store s (some c) t1).calls =
      [BCall.modifyBlock bid (cleanSystemContent c)] ∧
    (applyOverlay b (applyOverlay b store s (some c) t1).store s (some c) t2).calls = [] ∧
    (applyOverlay b (applyOverlay b store s (some c) t1).store s (some c) t2).changed
      = false := by
  have hcb : (c == "") = false := by simp [hc]
  have hnoskip : ((st0.overlay_hash == some (hashContent (cleanSystemContent c))) &&
      blockIdValid st0.block_id) = false := by
    have hb1 : (st0.overlay_hash == some (hashContent (cleanSystemContent c))) = false := by
      simp [hnh]
    rw [hb1, Bool.false_and]
  have hrec1 := reconcile_update_fails b st0 (cleanSystemContent c) bid hbid hbne hmod
  have h1 := applyOverlay_err b store s c t1 st0 _
    ⟨some (hashContent (cleanSystemContent c)), st0.block_id, true, st0.last_updated⟩
    hst0 hcb hnoskip hrec1 rfl
  have hcap2 : 1 ≤ (store.get s t1).2.maxSessions := by
    rw [OverlayStore.get_maxSessions]
    exact hcap
  have httl2 : t2 - t1 ≤ (store.get s t1).2.ttlSeconds := by
    rw [OverlayStore.get_ttlSeconds]
    exact httl
  have hobs : ((applyOverlay b store s (some c) t1).store.get s t2).1 =
      some ⟨some (hashContent (cleanSystemContent c)), st0.block_id, true, t1⟩ := by
    rw [h1]
    exact OverlayStore.get_set_same (store.get s t1).2 s _ t1 t2 hcap2 httl2
  have hst2 : (((applyOverlay b store s (some c) t1).store.get s t2).1).getD {} =
      ⟨some (hashContent (cleanSystemContent c)), st0.block_id, true, t1⟩ := by
    rw [hobs]
    rfl
  have hbidv : blockIdValid (⟨some (hashContent (cleanSystemContent c)), st0.block_id,
      true, t1⟩ : SessionOverlayState).block_id = true := by
    show blockIdValid st0.block_id = true
    rw [hbid]
    simp [blockIdValid, hbne]
  have h2 := applyOverlay_cached b (applyOverlay b store s (some c) t1).store s c t2
    ⟨some (hashContent (cleanSystemContent c)), st0.block_id, true, t1⟩
    hst2 hcb rfl hbidv
  exact ⟨by rw [h1], by rw [h1], by rw [h2], by rw [h2]⟩

set_option maxRecDepth 40000 in
/-- Witness for the amended C5: a store holding a stale hash and block handle
`blk-9`, a backend whose modify fails. -/
theorem no_retry_after_failed_update_witness :
    ((((staleStore.get "s1" 0).1).getD {} = staleState) ∧
     staleState.block_id = some "blk-9" ∧ ("blk-9" : String) ≠ "" ∧
     failingBackend.modifyResult "blk-9" = Except.error () ∧
     ("hi" : String) ≠ "" ∧
     staleState.overlay_hash ≠ some (hashContent (cleanSystemContent "hi")) ∧
     1 ≤ staleStore.maxSessions ∧ (0 : Nat) - 0 ≤ staleStore.ttlSeconds) ∧
    ((applyOverlay failingBackend staleStore "s1" (some "hi") 0).changed = false ∧
    (applyOverlay failingBackend staleStore "s1" (some "hi") 0).calls =
      [BCall.modifyBlock "blk-9" (cleanSystemContent "hi")] ∧
    (applyOverlay failingBackend
      (applyOverlay failingBackend staleStore "s1" (some "hi") 0).store
      "s1" (some "hi") 0).calls = [] ∧
    (applyOverlay failingBackend
      (applyOverlay failingBackend staleStore "s1" (some "hi") 0).store
      "s1" (some "hi") 0).changed = false) :=
  ⟨⟨(by decide), rfl, (by decide), rfl, (by decide), (by decide), (by decide), (by decide)⟩,
   no_retry_after_failed_update failingBackend staleStore "s1" "hi" 0 0 staleState "blk-9"
     (by decide) rfl (by decide) rfl (by decide) (by decide) (by decide) (by decide)⟩

/-! ## Session-key derivation (C6, C10) -/

theorem TTLCache.get_inv (c : TTLCache) (key : String) (now : Nat)
    (hinv : cacheValuesAreKeys c) :
    (∀ v, (c.get key now).1 = some v → v = key) ∧
    cacheValuesAreKeys (c.get key now).2 := by
  unfold TTLCache.get
  split
  · exact ⟨fun v hv => Option.noConfusion hv, hinv⟩
  · rename_i k0 ts item heq
    have hk0 : k0 = key := by simpa using List.find?_some heq
    have hitem : item = k0 := hinv (k0, ts, item) (List.mem_of_find?_eq_some heq)
    split
    · refine ⟨fun v hv => Option.noConfusion hv, ?_⟩
      intro e he
      exact hinv e (List.mem_filter.mp he).1
    · refine ⟨fun v hv => ?_, ?_⟩
      · injection hv with h
        rw [← h, hitem, hk0]
      · intro e he
        rcases List.mem_append.mp he with h | h
        · exact hinv e (List.mem_filter.mp h).1
        · have he2 : e = (key, now, item) := by simpa using h
          subst he2
          show item = key
          rw [hitem, hk0]

theorem TTLCache.set_self_inv (c : TTLCache) (key : String) (now : Nat)
    (hinv : cacheValuesAreKeys c) : cacheValuesAreKeys (c.set key key now) := by
  intro e he
  unfold TTLCache.set at he
  have hmem := List.mem_of_mem_drop he
  rcases List.mem_append.mp hmem with h | h
  · exact hinv e (List.mem_filter.mp h).1
  · have he2 : e = (key, now, key) := by simpa using h
    subst he2
    rfl

theorem cacheKeyLookup_spec (cache : TTLCache) (key : String) (now : Nat)
    (hinv : cacheValuesAreKeys cache) :
    (cacheKeyLookup cache key now).1 = key ∧
    cacheValuesAreKeys (cacheKeyLookup cache key now).2 := by
  obtain ⟨hval, hinv2⟩ := TTLCache.get_inv cache key now hinv
  unfold cacheKeyLookup
  rcases hg : cache.get key now with ⟨o, c2⟩
  rw [hg] at hval hinv2
  cases o with
  | some v =>
    dsimp only
    exact ⟨hval v rfl, hinv2⟩
  | none =>
    dsimp only
    exact ⟨rfl, TTLCache.set_self_inv c2 key now hinv2⟩

theorem deriveContentKey_spec (cache : TTLCache) (agentId : String)
    (systemContent : Option String) (now : Nat) (hinv : cacheValuesAreKeys cache) :
    (deriveContentKey cache agentId systemContent now).1 =
      deriveKeySpecContent agentId systemContent ∧
    cacheValuesAreKeys (deriveContentKey cache agentId systemContent now).2 := by
  unfold deriveContentKey deriveKeySpecContent
  cases systemContent with
  | none => exact cacheKeyLookup_spec cache _ now hinv
  | some c =>
    cases hcc : (c != "") with
    | true =>
      simp only [hcc, if_true]
      exact cacheKeyLookup_spec cache _ now hinv
    | false =>
      simp only [hcc, Bool.false_eq_true, if_false]
      exact cacheKeyLookup_spec cache _ now hinv

theorem deriveSessionId_spec (cache : TTLCache) (agentId : String)
    (systemContent : Option String) (headers : List (String × String)) (now : Nat)
    (hinv : cacheValuesAreKeys cache) :
    (deriveSessionId cache agentId systemContent headers now).1 =
      deriveKeySpec agentId systemContent headers ∧
    cacheValuesAreKeys (deriveSessionId cache agentId systemContent headers now).2 := by
  unfold deriveSessionId deriveKeySpec
  cases horf : orFalsy (hlookup headers "x-session-id") (hlookup headers "X-Session-Id") with
  | some v =>
    cases hvc : (v != "") with
    | true =>
      refine ⟨?_, ?_⟩
      · simp [hvc]
      · simpa [hvc] using hinv
    | false =>
      simp only [hvc, Bool.false_eq_true, if_false]
      exact deriveContentKey_spec cache agentId systemContent now hinv
  | none => exact deriveContentKey_spec cache agentId systemContent now hinv

set_option maxRecDepth 40000 in
/-- C6 counterexample: `derive_session_id` hashes the raw system content — the
normalization (CRLF to LF) happens only inside `apply_overlay` — so two system
contents that are equal after normalization (differing only in line endings)
derive different session keys, contrary to the claim. -/
theorem derive_normalized_counterexample :
    cleanSystemContent "x\r\n" = cleanSystemContent "x\n" ∧
    (deriveSessionId emptyCache "a" (some "x\r\n") [] 0).1 ≠
      (deriveSessionId emptyCache "a" (some "x\n") [] 0).1 := by
  decide

/-- C6 (amended): for every (agent_id, system_content, headers), with the
derived-key cache satisfying its invariant (every cached value is its own
key), `derive_session_id` returns (1) the header-supplied session identifier
verbatim when a truthy one is present; otherwise (2) if the system content is
non-empty, the key `agent_id:sha256(raw content)` — the hash is over the raw,
un-normalized content, so contents differing only before normalization (e.g.
CRLF vs LF line endings) derive distinct keys; otherwise (3) the
`agent_id:default` key.  `deriveKeySpec` is that pure specification. -/
theorem derive_session_id_precedence (cache : TTLCache) (agentId : String)
    (systemContent : Option String) (headers : List (String × String)) (now : Nat)
    (hinv : cacheValuesAreKeys cache) :
    (deriveSessionId cache agentId systemContent headers now).1 =
      deriveKeySpec agentId systemContent headers :=
  (deriveSessionId_spec cache agentId systemContent headers now hinv).1

set_option maxRecDepth 40000 in
/-- Witness for the amended C6 at concrete inputs: header precedence, raw
content hash, and the default key. -/
theorem derive_session_id_precedence_witness :
    cacheValuesAreKeys emptyCache ∧
    (deriveSessionId emptyCache "a" (some "x") [("x-session-id", "sess")] 0).1 =
      deriveKeySpec "a" (some "x") [("x-session-id", "sess")] ∧
    (deriveSessionId emptyCache "a" (some "x") [] 0).1 = deriveKeySpec "a" (some "x") [] ∧
    (deriveSessionId emptyCache "a" none [] 0).1 = deriveKeySpec "a" none [] ∧
    deriveKeySpec "a" (some "x") [("x-session-id", "sess")] = "sess" ∧
    deriveKeySpec "a" none [] = "a:default" :=
  ⟨(by intro e he; fin_cases he),
   derive_session_id_precedence emptyCache "a" (some "x") [("x-session-id", "sess")] 0
     (by intro e he; fin_cases he),
   derive_session_id_precedence emptyCache "a" (some "x") [] 0 (by intro e he; fin_cases he),
   derive_session_id_precedence emptyCache "a" none [] 0 (by intro e he; fin_cases he),
   (by decide), (by decide)⟩

/-- C10: session-key derivation is deterministic and independent of the
derived-key cache's contents, TTL expiry, and LRU eviction: under the cache
invariant that every stored value is its own key (which every write of
`derive_session_id` maintains, and which the empty cache satisfies), any two
calls at the same inputs return the same key, whatever the two cache states
and clock readings are; moreover the call preserves the invariant. -/
theorem derive_session_id_cache_independent (agentId : String)
    (systemContent : Option String) (headers : List (String × String))
    (c1 c2 : TTLCache) (t1 t2 : Nat)
    (h1 : cacheValuesAreKeys c1) (h2 : cacheValuesAreKeys c2) :
    (deriveSessionId c1 agentId systemContent headers t1).1 =
      (deriveSessionId c2 agentId systemContent headers t2).1 ∧
    cacheValuesAreKeys (deriveSessionId c1 agentId systemContent headers t1).2 := by
  obtain ⟨e1, i1⟩ := deriveSessionId_spec c1 agentId systemContent headers t1 h1
  obtain ⟨e2, _⟩ := deriveSessionId_spec c2 agentId systemContent headers t2 h2
  exact ⟨e1.trans e2.symm, i1⟩

set_option maxRecDepth 40000 in
/-- Witness for C10: an empty cache versus a populated cache with an old
timestamp give the same derived key. -/
theorem derive_session_id_cache_independent_witness :
    cacheValuesAreKeys emptyCache ∧
    cacheValuesAreKeys populatedCache ∧
    ((deriveSessionId emptyCache "a" (some "x") [] 0).1 =
      (deriveSessionId populatedCache "a" (some "x") [] 99999).1 ∧
     cacheValuesAreKeys (deriveSessionId emptyCache "a" (some "x") [] 0).2) :=
  ⟨(by intro e he; fin_cases he), (by intro e he; fin_cases he; rfl),
   derive_session_id_cache_independent "a" (some "x") [] emptyCache populatedCache
     0 99999 (by intro e he; fin_cases he) (by intro e he; fin_cases he; rfl)⟩

end MemGPTProxy
